import Mathlib

/-!
Verification of the episode-relatedness engine of the crimeweb repository
(fuzzy matching of true-crime episodes): entity extraction from episode
titles/overviews, the pairwise scorer `calculateMatchScore`, and the ranker
`findRelatedEpisodes`.

The JavaScript/TypeScript source is embedded shallowly:
- JS strings are Lean `String`s, worked on through their `List Char` data;
- the concrete regexes of the source are embedded as deterministic scanners
  (each pattern of the source is disjointness-analysed: its greedy runs never
  need backtracking, so a direct maximal-run scanner is an exact model of the
  JS regex engine on these patterns, including the non-overlapping
  left-to-right global `exec` loop and `\b` word boundaries);
- JS `Set` is a list with first-occurrence insertion order;
- JS numbers in the scoring arithmetic are embedded as `ℚ` (the spec and the
  code speak in exact decimal constants);
- `Array.prototype.sort` is embedded as a stable insertion sort on the
  comparator. ECMAScript requires the sort to be stable and specifies the
  order only for consistent comparators; for an inconsistent comparator the
  order is implementation-defined, so the development draws on the sort
  model only through facts that hold for every conforming implementation:
  the output is a permutation of the input, and when the comparator is
  transitive on the input the output is comparator-sorted;
- `new Date(s).getTime()` is embedded for ISO `YYYY-MM-DD` strings (exact
  epoch-millisecond value); other strings are treated as invalid (NaN), and a
  NaN comparator value is coerced to `0` as in ECMAScript `SortCompare`.
-/

namespace Crimeweb

/-! ## Character classes (ASCII, as used by the source regexes) -/

def isUpperA (c : Char) : Bool := 65 ≤ c.toNat && c.toNat ≤ 90

def isLowerA (c : Char) : Bool := 97 ≤ c.toNat && c.toNat ≤ 122

def isDigitA (c : Char) : Bool := 48 ≤ c.toNat && c.toNat ≤ 57

def isLetterA (c : Char) : Bool := isUpperA c || isLowerA c

/-- JS `\s` restricted to the whitespace characters that can occur here:
ASCII whitespace, NBSP and the BOM. -/
def isJsSpace (c : Char) : Bool :=
  (9 ≤ c.toNat && c.toNat ≤ 13) || c.toNat = 32 || c.toNat = 160 || c.toNat = 65279

/-- JS `\w` (word character), used for `\b` boundaries. -/
def isWordC (c : Char) : Bool := isLetterA c || isDigitA c || c.toNat = 95

/-- Boundary `\b` after a match: the next character (if any) is not a word character. -/
def notWordAt : List Char → Bool
  | [] => true
  | c :: _ => !isWordC c

/-- JS `toLowerCase` on the ASCII range (identity elsewhere). -/
def jsToLower (c : Char) : Char :=
  if isUpperA c then Char.ofNat (c.toNat + 32) else c

/-- JS `toUpperCase` on the ASCII range (identity elsewhere). -/
def jsToUpper (c : Char) : Char :=
  if isLowerA c then Char.ofNat (c.toNat - 32) else c

def lowerStr (l : List Char) : String := String.mk (l.map jsToLower)

/-! ## Generic scanning helpers -/

/-- Maximal run of characters satisfying `p` (the greedy `p+` / `p*`). -/
def takeRun (p : Char → Bool) : List Char → List Char × List Char
  | [] => ([], [])
  | c :: cs =>
    if p c then
      let r := takeRun p cs
      (c :: r.1, r.2)
    else ([], c :: cs)

/-- Match a literal (case-sensitive); returns the rest. -/
def eatLit : List Char → List Char → Option (List Char)
  | [], t => some t
  | k :: ks, t :: ts => if t = k then eatLit ks ts else none
  | _ :: _, [] => none

/-- Match a literal case-insensitively (the literal is given lowercase);
returns the consumed original characters and the rest. -/
def eatLitCI : List Char → List Char → Option (List Char × List Char)
  | [], t => some ([], t)
  | k :: ks, t :: ts =>
    if jsToLower t = k then
      match eatLitCI ks ts with
      | some (r, rest) => some (t :: r, rest)
      | none => none
    else none
  | _ :: _, [] => none

/-- JS `str.split(sep)` for a one-character separator (keeps empty pieces). -/
def splitChar (sep : Char) : List Char → List Char → List (List Char)
  | [], acc => [acc.reverse]
  | c :: cs, acc =>
    if c = sep then acc.reverse :: splitChar sep cs [] else splitChar sep cs (c :: acc)

mutual

/-- JS `str.split(/\s+/)`: currently inside a non-space piece. -/
def splitWsAux : List Char → List Char → List (List Char)
  | [], acc => [acc.reverse]
  | c :: cs, acc =>
    if isJsSpace c then acc.reverse :: splitWsSkip cs else splitWsAux cs (c :: acc)

/-- JS `str.split(/\s+/)`: currently skipping a whitespace run. -/
def splitWsSkip : List Char → List (List Char)
  | [] => [[]]
  | c :: cs => if isJsSpace c then splitWsSkip cs else splitWsAux cs [c]

end

/-- JS `str.split(/\s+/)`. -/
def splitWs (l : List Char) : List String := (splitWsAux l []).map String.mk

/-- JS `Set.add` / `[...new Set(xs)]`: append if absent, keeping first
occurrences in insertion order. -/
def addUnique (acc : List String) (s : String) : List String :=
  if s ∈ acc then acc else acc ++ [s]

def dedupKeepFirst (l : List String) : List String := l.foldl addUnique []

/-! ## Word lists from the source -/

/-- The `STOP_WORDS` of the source, in source order (the source stores them in a
`Set`; list membership is the same predicate). -/
def STOP_WORDS : List String :=
  ["the", "a", "an", "and", "or", "but", "in", "on", "at", "to", "for", "of", "with",
   "by", "from", "as", "is", "was", "are", "were", "been", "be", "have", "has", "had",
   "do", "does", "did", "will", "would", "could", "should", "may", "might", "must",
   "shall", "can", "need", "dare", "ought", "used", "it", "its", "he", "she", "they",
   "them", "his", "her", "their", "this", "that", "these", "those", "what", "which",
   "who", "whom", "whose", "when", "where", "why", "how", "all", "each", "every",
   "both", "few", "more", "most", "other", "some", "such", "no", "nor", "not", "only",
   "own", "same", "so", "than", "too", "very", "just", "also", "now", "here", "there",
   "then", "once", "after", "before", "being", "into", "through", "during", "until",
   "while", "about", "against", "between", "under", "over", "again", "further",
   "part", "story", "mystery", "murder", "death", "killer", "killing", "crime",
   "investigation", "police", "detective", "victim", "suspect", "accused", "trial",
   "episode", "special", "update", "new", "exclusive", "inside", "behind", "true",
   "real", "deadly", "dark", "secret", "secrets", "hidden", "revealed", "untold",
   "case", "family", "found", "young", "woman", "man", "mother", "father", "husband",
   "wife", "daughter", "son", "friend", "home", "night", "day", "year", "years",
   "time", "life", "body", "scene", "evidence", "first", "last", "one", "two",
   "trouble", "hunt", "perfect", "morning", "spring", "summer", "fall", "winter",
   "cold", "hot", "final", "last", "fatal", "deadly", "dangerous", "missing",
   "lost", "gone", "taken", "vanished", "disappeared", "justice", "verdict",
   "trial", "truth", "lies", "betrayal", "love", "hate", "evil", "innocent",
   "guilty", "accused", "devil", "angel", "saint", "sinner", "stranger"]

/-- The `US_STATES` of the source: state names and common location words. -/
def US_STATES : List String :=
  ["alabama", "alaska", "arizona", "arkansas", "california", "colorado", "connecticut",
   "delaware", "florida", "georgia", "hawaii", "idaho", "illinois", "indiana", "iowa",
   "kansas", "kentucky", "louisiana", "maine", "maryland", "massachusetts", "michigan",
   "minnesota", "mississippi", "missouri", "montana", "nebraska", "nevada", "hampshire",
   "jersey", "mexico", "york", "carolina", "dakota", "ohio", "oklahoma", "oregon",
   "pennsylvania", "island", "tennessee", "texas", "utah", "vermont", "virginia",
   "washington", "wisconsin", "wyoming"]

/-- The `skipPairs` of `extractNames`: common non-name pairs. -/
def skipPairs : List String :=
  ["blue mountains", "fort bragg", "tarpon springs", "north carolina",
   "south carolina", "north dakota", "south dakota", "new york", "new jersey",
   "new mexico", "new hampshire", "west virginia", "rhode island"]

/-- The `fullStateNames` of `extractLocations`, in source order (the order is the
alternation order of the standalone-state regex). -/
def fullStateNames : List String :=
  ["alabama", "alaska", "arizona", "arkansas", "california", "colorado",
   "connecticut", "delaware", "florida", "georgia", "hawaii", "idaho",
   "illinois", "indiana", "iowa", "kansas", "kentucky", "louisiana",
   "maine", "maryland", "massachusetts", "michigan", "minnesota",
   "mississippi", "missouri", "montana", "nebraska", "nevada",
   "ohio", "oklahoma", "oregon", "pennsylvania", "tennessee", "texas",
   "utah", "vermont", "virginia", "washington", "wisconsin", "wyoming",
   "new hampshire", "new jersey", "new mexico", "new york",
   "north carolina", "north dakota", "south carolina", "south dakota",
   "west virginia", "rhode island"]

/-- The `stateAbbreviations` of `extractLocations`. -/
def stateAbbreviations : List String :=
  ["AL", "AK", "AZ", "AR", "CA", "CO", "CT", "DE", "FL", "GA", "HI", "ID",
   "IL", "IN", "IA", "KS", "KY", "LA", "ME", "MD", "MA", "MI", "MN", "MS",
   "MO", "MT", "NE", "NV", "NH", "NJ", "NM", "NY", "NC", "ND", "OH", "OK",
   "OR", "PA", "RI", "SC", "SD", "TN", "TX", "UT", "VT", "VA", "WA", "WV",
   "WI", "WY", "DC"]

/-- Keyword alternatives of the contextual-cue name pattern
`(?:victim|accused|suspect|defendant|nurse|doctor|Dr\.|specialist)`, in
alternation order, lowercased for the case-insensitive match. -/
def cueWords : List (List Char) :=
  ["victim".data, "accused".data, "suspect".data, "defendant".data,
   "nurse".data, "doctor".data, "dr.".data, "specialist".data]

/-! ## Name extraction (`extractNames`)

Pattern 1: `/\b([A-Z][a-z]+)\s+([A-Z][a-z]+)\b/g`.
Pattern 2: `/\b([A-Z][a-z]+(?:\s+[A-Z][a-z]+)?)'s\b/g`.
Pattern 3: `/(?:victim|accused|suspect|defendant|nurse|doctor|Dr\.|specialist)\s+([A-Z][a-z]+\s+[A-Z][a-z]+)\b/gi`.
-/

def aposChar : Char := Char.ofNat 39

/-- A capitalized word `[A-Z][a-z]+` with its maximal lowercase run. -/
def parseWord : List Char → Option (List Char × List Char)
  | c :: cs =>
    if isUpperA c then
      let r := takeRun isLowerA cs
      if r.1.isEmpty then none else some (c :: r.1, r.2)
    else none
  | [] => none

/-- Attempt pattern 1 at the current position; returns the two captured words
and the rest of the text after the match. -/
def p1At (cs : List Char) : Option ((List Char × List Char) × List Char) :=
  match parseWord cs with
  | none => none
  | some (w1, s1) =>
    let ws := takeRun isJsSpace s1
    if ws.1.isEmpty then none
    else
      match parseWord ws.2 with
      | none => none
      | some (w2, s2) => if notWordAt s2 then some ((w1, w2), s2) else none

/-- The global `exec` loop of pattern 1: leftmost non-overlapping matches with
a `\b` start boundary (tracked by whether the previous character is a word
character). -/
def scanP1 : Nat → Bool → List Char → List (List Char × List Char)
  | 0, _, _ => []
  | _ + 1, _, [] => []
  | fuel + 1, prevWord, c :: cs =>
    match (if prevWord then none else p1At (c :: cs)) with
    | some (m, rest) => m :: scanP1 fuel true rest
    | none => scanP1 fuel (isWordC c) cs

/-- Literal `'s` followed by `\b`. -/
def possTail : List Char → Option (List Char)
  | a :: s :: rest =>
    if a = aposChar && s = 's' && notWordAt rest then some rest else none
  | _ => none

/-- Attempt pattern 2 at the current position; returns the raw captured group
(original characters, including any internal whitespace) and the rest. -/
def p2At (cs : List Char) : Option (List Char × List Char) :=
  match parseWord cs with
  | none => none
  | some (w1, s1) =>
    let withOpt :=
      let ws := takeRun isJsSpace s1
      if ws.1.isEmpty then none
      else
        match parseWord ws.2 with
        | none => none
        | some (w2, s2) =>
          match possTail s2 with
          | some rest => some (w1 ++ ws.1 ++ w2, rest)
          | none => none
    match withOpt with
    | some res => some res
    | none =>
      match possTail s1 with
      | some rest => some (w1, rest)
      | none => none

/-- The global `exec` loop of pattern 2. -/
def scanP2 : Nat → Bool → List Char → List (List Char)
  | 0, _, _ => []
  | _ + 1, _, [] => []
  | fuel + 1, prevWord, c :: cs =>
    match (if prevWord then none else p2At (c :: cs)) with
    | some (m, rest) => m :: scanP2 fuel true rest
    | none => scanP2 fuel (isWordC c) cs

/-- A two-letter-run group `[A-Z][a-z]+\s+[A-Z][a-z]+` under the `i` flag
(each bracket class matches any ASCII letter), ending at a `\b`. Returns the
raw captured characters and the rest. -/
def p3Group (s1 : List Char) : Option (List Char × List Char) :=
  match s1 with
  | a :: as_ =>
    if isLetterA a then
      let r1 := takeRun isLetterA as_
      if r1.1.isEmpty then none
      else
        let ws := takeRun isJsSpace r1.2
        if ws.1.isEmpty then none
        else
          match ws.2 with
          | b :: bs =>
            if isLetterA b then
              let r2 := takeRun isLetterA bs
              if r2.1.isEmpty then none
              else if notWordAt r2.2 then
                some (a :: r1.1 ++ ws.1 ++ b :: r2.1, r2.2)
              else none
            else none
          | [] => none
    else none
  | [] => none

/-- After a cue word: `\s+` then the name group. -/
def p3Tail (s0 : List Char) : Option (List Char × List Char) :=
  let ws := takeRun isJsSpace s0
  if ws.1.isEmpty then none else p3Group ws.2

/-- Attempt pattern 3 at the current position, trying the cue-word
alternatives in alternation order (no `\b` before the cue in the source). -/
def p3TryCues : List (List Char) → List Char → Option (List Char × List Char)
  | [], _ => none
  | k :: ks, cs =>
    match eatLitCI k cs with
    | some (_, afterKw) =>
      match p3Tail afterKw with
      | some r => some r
      | none => p3TryCues ks cs
    | none => p3TryCues ks cs

def p3At (cs : List Char) : Option (List Char × List Char) := p3TryCues cueWords cs

/-- The global `exec` loop of pattern 3 (no start boundary). -/
def scanP3 : Nat → List Char → List (List Char)
  | 0, _ => []
  | _ + 1, [] => []
  | fuel + 1, c :: cs =>
    match p3At (c :: cs) with
    | some (m, rest) => m :: scanP3 fuel rest
    | none => scanP3 fuel cs

/-- Processing of one pattern-1 match: lowercase both words, apply the
identical-words, stop-word, state-fragment and `skipPairs` filters, then add
`"first last"` to the set. -/
def p1Insert (acc : List String) (m : List Char × List Char) : List String :=
  let firstName := lowerStr m.1
  let lastName := lowerStr m.2
  if firstName = lastName then acc
  else if firstName ∈ STOP_WORDS ∨ lastName ∈ STOP_WORDS then acc
  else if firstName ∈ US_STATES ∨ lastName ∈ US_STATES then acc
  else
    let fullName := firstName ++ " " ++ lastName
    if fullName ∈ skipPairs then acc else addUnique acc fullName

/-- Processing of one pattern-2 match: lowercase the raw group, split on
`\s+`, filter stop words / state fragments, and add only full (two-word)
names not already present. -/
def p2Insert (acc : List String) (raw : List Char) : List String :=
  let name := lowerStr raw
  let words := splitWs name.data
  if words.any (fun w => w ∈ STOP_WORDS ∨ w ∈ US_STATES) then acc
  else if 2 ≤ words.length ∧ name ∉ acc then acc ++ [name]
  else acc

/-- Processing of one pattern-3 match: lowercase, split on `\s+`, filter stop
words / state fragments, and add to the set. -/
def p3Insert (acc : List String) (raw : List Char) : List String :=
  let name := lowerStr raw
  let words := splitWs name.data
  if words.any (fun w => w ∈ STOP_WORDS ∨ w ∈ US_STATES) then acc
  else addUnique acc name

/-- Function `extractNames` of the source. -/
def extractNames (text : String) : List String :=
  if text = "" then []
  else
    let cs := text.data
    let set1 := (scanP1 cs.length false cs).foldl p1Insert []
    let set2 := (scanP2 cs.length false cs).foldl p2Insert set1
    (scanP3 cs.length cs).foldl p3Insert set2

/-! ## Location extraction (`extractLocations`)

Pattern L1: `/\b([A-Z][a-z]+(?:\s+[A-Z][a-z]+)?),\s*([A-Z][a-z]+(?:\s+[A-Z][a-z]+)?|[A-Z]{2})\b/g`.
Pattern L2: `/\b([A-Z][a-z]+(?:\s+[A-Z][a-z]+)?)\s+County\b/g`.
Pattern L3: `/\bFort\s+([A-Z][a-z]+)\b/g`.
Pattern L4: standalone full state names, `gi`, with `\b` on both sides.
-/

/-- The state group `([A-Z][a-z]+(?:\s+[A-Z][a-z]+)?|[A-Z]{2})` followed by
`\b`, alternatives in alternation order. -/
def stateGroupAt (cs : List Char) : Option (List Char × List Char) :=
  match parseWord cs with
  | some (w1, r1) =>
    let withOpt :=
      let ws := takeRun isJsSpace r1
      if ws.1.isEmpty then none
      else
        match parseWord ws.2 with
        | some (w2, r2) => if notWordAt r2 then some (w1 ++ ws.1 ++ w2, r2) else none
        | none => none
    match withOpt with
    | some res => some res
    | none => if notWordAt r1 then some (w1, r1) else none
  | none =>
    match cs with
    | a :: b :: rest =>
      if isUpperA a && isUpperA b && notWordAt rest then some ([a, b], rest) else none
    | _ => none

/-- Attempt pattern L1 (`City, State`) at the current position; returns the
raw city group, the raw state group and the rest. -/
def l1At (cs : List Char) : Option ((List Char × List Char) × List Char) :=
  match parseWord cs with
  | none => none
  | some (w1, r1) =>
    let cont := fun (city : List Char) (r : List Char) =>
      match r with
      | c :: r2 =>
        if c = ',' then
          let ws := takeRun isJsSpace r2
          match stateGroupAt ws.2 with
          | some (st, rest) => some ((city, st), rest)
          | none => none
        else none
      | [] => none
    let withOpt :=
      let ws := takeRun isJsSpace r1
      if ws.1.isEmpty then none
      else
        match parseWord ws.2 with
        | some (w2, r2) => cont (w1 ++ ws.1 ++ w2) r2
        | none => none
    match withOpt with
    | some res => some res
    | none => cont w1 r1

def scanL1 : Nat → Bool → List Char → List (List Char × List Char)
  | 0, _, _ => []
  | _ + 1, _, [] => []
  | fuel + 1, prevWord, c :: cs =>
    match (if prevWord then none else l1At (c :: cs)) with
    | some (m, rest) => m :: scanL1 fuel true rest
    | none => scanL1 fuel (isWordC c) cs

/-- Attempt pattern L2 (`[Phrase] County`) at the current position; returns
the raw captured phrase and the rest. -/
def l2At (cs : List Char) : Option (List Char × List Char) :=
  match parseWord cs with
  | none => none
  | some (w1, r1) =>
    let tail := fun (r : List Char) =>
      let ws := takeRun isJsSpace r
      if ws.1.isEmpty then none
      else
        match eatLit "County".data ws.2 with
        | some rest => if notWordAt rest then some rest else none
        | none => none
    let withOpt :=
      let ws := takeRun isJsSpace r1
      if ws.1.isEmpty then none
      else
        match parseWord ws.2 with
        | some (w2, r2) =>
          match tail r2 with
          | some rest => some (w1 ++ ws.1 ++ w2, rest)
          | none => none
        | none => none
    match withOpt with
    | some res => some res
    | none =>
      match tail r1 with
      | some rest => some (w1, rest)
      | none => none

def scanL2 : Nat → Bool → List Char → List (List Char)
  | 0, _, _ => []
  | _ + 1, _, [] => []
  | fuel + 1, prevWord, c :: cs =>
    match (if prevWord then none else l2At (c :: cs)) with
    | some (m, rest) => m :: scanL2 fuel true rest
    | none => scanL2 fuel (isWordC c) cs

/-- Attempt pattern L3 (`Fort [Word]`) at the current position. -/
def l3At (cs : List Char) : Option (List Char × List Char) :=
  match eatLit "Fort".data cs with
  | none => none
  | some s1 =>
    let ws := takeRun isJsSpace s1
    if ws.1.isEmpty then none
    else
      match parseWord ws.2 with
      | some (w, rest) => if notWordAt rest then some (w, rest) else none
      | none => none

def scanL3 : Nat → Bool → List Char → List (List Char)
  | 0, _, _ => []
  | _ + 1, _, [] => []
  | fuel + 1, prevWord, c :: cs =>
    match (if prevWord then none else l3At (c :: cs)) with
    | some (m, rest) => m :: scanL3 fuel true rest
    | none => scanL3 fuel (isWordC c) cs

/-- Attempt pattern L4 (standalone state name, case-insensitive) at the
current position, trying the state names in alternation order. -/
def l4Try : List String → List Char → Option (List Char × List Char)
  | [], _ => none
  | s :: ss, cs =>
    match eatLitCI s.data cs with
    | some (raw, rest) =>
      if notWordAt rest then some (raw, rest) else l4Try ss cs
    | none => l4Try ss cs

def l4At (cs : List Char) : Option (List Char × List Char) := l4Try fullStateNames cs

def scanL4 : Nat → Bool → List Char → List (List Char)
  | 0, _, _ => []
  | _ + 1, _, [] => []
  | fuel + 1, prevWord, c :: cs =>
    match (if prevWord then none else l4At (c :: cs)) with
    | some (m, rest) => m :: scanL4 fuel true rest
    | none => scanL4 fuel (isWordC c) cs

/-- Function `extractLocations` of the source: the four patterns push into one array
(in pattern order), then `[...new Set(...)]` dedupes keeping first
occurrences. A pattern-L1 match pushes only when its state group validates
against the full state names or the abbreviation list. -/
def extractLocations (text : String) : List String :=
  if text = "" then []
  else
    let cs := text.data
    let fromL1 := (scanL1 cs.length false cs).foldl
      (fun acc m =>
        let stateLower := lowerStr m.2
        if stateLower ∈ fullStateNames ∨ String.mk m.2 ∈ stateAbbreviations then
          acc ++ [lowerStr m.1, stateLower]
        else acc) []
    let fromL2 := (scanL2 cs.length false cs).foldl
      (fun acc raw =>
        let county := lowerStr raw
        if county ∉ STOP_WORDS ∧ 2 < county.length then acc ++ [county ++ " county"]
        else acc) fromL1
    let fromL3 := (scanL3 cs.length false cs).foldl
      (fun acc raw => acc ++ ["fort " ++ lowerStr raw]) fromL2
    let fromL4 := (scanL4 cs.length false cs).foldl
      (fun acc raw => acc ++ [lowerStr raw]) fromL3
    dedupKeepFirst fromL4

/-! ## Year extraction (`extractYears`): `/\b(19[7-9]\d|20[0-2]\d)\b/g` -/

def yearAt : List Char → Option (List Char × List Char)
  | a :: b :: c :: d :: rest =>
    if ((a = '1' && b = '9' && 55 ≤ c.toNat && c.toNat ≤ 57) ||
        (a = '2' && b = '0' && 48 ≤ c.toNat && c.toNat ≤ 50)) &&
       isDigitA d && notWordAt rest then
      some ([a, b, c, d], rest)
    else none
  | _ => none

def scanYears : Nat → Bool → List Char → List (List Char)
  | 0, _, _ => []
  | _ + 1, _, [] => []
  | fuel + 1, prevWord, c :: cs =>
    match (if prevWord then none else yearAt (c :: cs)) with
    | some (m, rest) => m :: scanYears fuel true rest
    | none => scanYears fuel (isWordC c) cs

/-- Function `extractYears` of the source. -/
def extractYears (text : String) : List String :=
  if text = "" then []
  else
    let cs := text.data
    dedupKeepFirst ((scanYears cs.length false cs).map String.mk)

/-! ## `extractKeyTerms` -/

structure KeyTerms where
  names : List String
  locations : List String
  years : List String
deriving Repr, DecidableEq

/-- Function `extractKeyTerms` of the source. -/
def extractKeyTerms (text : String) : KeyTerms :=
  { names := extractNames text
    locations := extractLocations text
    years := extractYears text }

/-! ## Data model -/

structure Episode where
  id : Int
  showTmdbId : Int
  showName : String
  name : String
  overview : Option String
  airDate : Option String
  seasonNumber : Int
  episodeNumber : Int
  stillPath : Option String
deriving Repr, DecidableEq

structure MatchResult where
  episodeId : Int
  showTmdbId : Int
  showName : String
  name : String
  overview : Option String
  airDate : Option String
  seasonNumber : Int
  episodeNumber : Int
  stillPath : Option String
  score : ℚ
  matchReason : String
deriving Repr, DecidableEq

structure ScoreResult where
  score : ℚ
  reason : String
deriving Repr, DecidableEq

/-! ## Pairwise scorer (`calculateMatchScore`) -/

/-- The text blob scored for an episode: title, space, overview-or-empty
(`${source.name} ${source.overview || ''}`). -/
def episodeText (e : Episode) : String := e.name ++ " " ++ e.overview.getD ""

def episodeTerms (e : Episode) : KeyTerms := extractKeyTerms (episodeText e)

/-- JS `name.split(' ')` (single-space separator). -/
def nameParts (n : String) : List String := (splitChar ' ' n.data []).map String.mk

/-- The last element `sParts[sParts.length - 1]`. -/
def lastPart (n : String) : String := (nameParts n).getLastD ""

/-- The contribution of one ordered pair of extracted names to the
`nameMatches` array: the name itself on an exact match, otherwise
`"<surname> (last name)"` when both split to at least two parts with equal
last parts, otherwise nothing. -/
def pairContribution (s t : String) : Option String :=
  if s = t then some s
  else if 2 ≤ (nameParts s).length ∧ 2 ≤ (nameParts t).length ∧ lastPart s = lastPart t
  then some (lastPart s ++ " (last name)")
  else none

/-- The `nameMatches` array: the nested `for` loops push the contribution of
each ordered pair (duplicates included). -/
def nameMatchList (xs ys : List String) : List String :=
  xs.flatMap fun s => ys.filterMap fun t => pairContribution s t

def nameMatchesOf (source target : Episode) : List String :=
  nameMatchList (episodeTerms source).names (episodeTerms target).names

/-- The `locationMatches`: source locations present in the target's locations. -/
def sharedLocationsOf (source target : Episode) : List String :=
  (episodeTerms source).locations.filter
    (fun loc => decide (loc ∈ (episodeTerms target).locations))

/-- The `yearMatches`: source years present in the target's years. -/
def sharedYearsOf (source target : Episode) : List String :=
  (episodeTerms source).years.filter
    (fun year => decide (year ∈ (episodeTerms target).years))

/-- Capitalize the first character (JS `charAt(0).toUpperCase() + slice(1)`). -/
def capFirst (s : String) : String :=
  match s.data with
  | [] => ""
  | c :: rest => String.mk (jsToUpper c :: rest)

/-- JS `Array.prototype.join`. -/
def joinSep (sep : String) : List String → String
  | [] => ""
  | [s] => s
  | s :: rest => s ++ sep ++ joinSep sep rest

/-- JS `n.split(' ').map(w => w.charAt(0).toUpperCase() + w.slice(1)).join(' ')`. -/
def capWords (n : String) : String :=
  joinSep " " ((splitChar ' ' n.data []).map (fun w => capFirst (String.mk w)))

def fourDigitScan : List Char → Bool
  | [] => false
  | a :: rest =>
    (match rest with
     | b :: c :: d :: _ => isDigitA a && isDigitA b && isDigitA c && isDigitA d
     | _ => false) || fourDigitScan rest

/-- Does a reason string already contain a bare year (`/\d{4}/.test(r)`)? -/
def hasFourDigits (s : String) : Bool := fourDigitScan s.data

/-- The straight-line scoring and reason building of `calculateMatchScore`
after the three match lists are computed, in source order: name term, then
location bonus, then year bonus, then the name-gate override, then the final
`min(1, score)` clamp. -/
def scoreAndReason (nameMatches locationMatches yearMatches : List String) : ScoreResult :=
  let score1 : ℚ :=
    if 0 < nameMatches.length then 0.5 + (min nameMatches.length 3 : ℚ) * 0.15 else 0
  let reasons1 : List String :=
    if 0 < nameMatches.length then
      [joinSep ", " (((dedupKeepFirst nameMatches).take 2).map capWords)]
    else []
  let score2 : ℚ :=
    if 0 < locationMatches.length ∧ 0 < nameMatches.length then score1 + 0.2
    else if 0 < locationMatches.length then score1 + 0.1
    else score1
  let reasons2 : List String :=
    if 0 < locationMatches.length ∧ 0 < nameMatches.length then
      reasons1 ++ [capFirst (locationMatches.headD "")]
    else reasons1
  let score3 : ℚ :=
    if 0 < yearMatches.length ∧ (0 < nameMatches.length ∨ 0 < locationMatches.length) then
      score2 + 0.1
    else score2
  let reasons3 : List String :=
    if 0 < yearMatches.length ∧ (0 < nameMatches.length ∨ 0 < locationMatches.length) then
      (if 0 < yearMatches.length ∧ ¬ reasons2.any hasFourDigits then
        reasons2 ++ [yearMatches.headD ""]
      else reasons2)
    else reasons2
  let reason := joinSep " - " reasons3
  let score4 : ℚ := if nameMatches.length = 0 then 0 else score3
  let reasonF : String := if nameMatches.length = 0 then "" else reason
  ⟨min 1 score4, reasonF⟩

/-- Function `calculateMatchScore` of the source. -/
def calculateMatchScore (source target : Episode) : ScoreResult :=
  if source.id = target.id then ⟨0, ""⟩
  else
    scoreAndReason (nameMatchesOf source target) (sharedLocationsOf source target)
      (sharedYearsOf source target)

/-! ## Dates (`new Date(airDate).getTime()`)

Modelled for the ECMAScript Date Time String Format restricted to the
date-only form `YYYY-MM-DD` (the repository's air dates), giving the exact
UTC epoch milliseconds; any other string is treated as an invalid date
(`NaN`, represented by `none`). A falsy `airDate` (`null` or the empty
string) takes the `: 0` branch of the comparator. -/

def daysInMonth (y m : Nat) : Nat :=
  if m = 2 then (if y % 4 = 0 ∧ (y % 100 ≠ 0 ∨ y % 400 = 0) then 29 else 28)
  else if m = 4 ∨ m = 6 ∨ m = 9 ∨ m = 11 then 30
  else 31

/-- Days from the civil epoch 1970-01-01 (proleptic Gregorian). -/
def daysFromCivil (y m d : Nat) : Int :=
  let yAdj : Int := if m ≤ 2 then (y : Int) - 1 else (y : Int)
  let era : Int := Int.fdiv yAdj 400
  let yoe : Int := yAdj - era * 400
  let mp : Int := if 2 < m then (m : Int) - 3 else (m : Int) + 9
  let doy : Int := Int.fdiv (153 * mp + 2) 5 + (d : Int) - 1
  let doe : Int := yoe * 365 + Int.fdiv yoe 4 - Int.fdiv yoe 100 + doy
  era * 146097 + doe - 719468

def digitVal (c : Char) : Nat := c.toNat - 48

/-- Parse `YYYY-MM-DD` to UTC epoch milliseconds; `none` is an invalid date. -/
def parseIsoDate (s : String) : Option Int :=
  match s.data with
  | [y1, y2, y3, y4, h1, m1, m2, h2, d1, d2] =>
    if isDigitA y1 && isDigitA y2 && isDigitA y3 && isDigitA y4 &&
       h1 = '-' && isDigitA m1 && isDigitA m2 && h2 = '-' && isDigitA d1 && isDigitA d2 then
      let y := ((digitVal y1 * 10 + digitVal y2) * 10 + digitVal y3) * 10 + digitVal y4
      let m := digitVal m1 * 10 + digitVal m2
      let d := digitVal d1 * 10 + digitVal d2
      if 1 ≤ m ∧ m ≤ 12 ∧ 1 ≤ d ∧ d ≤ daysInMonth y m then
        some (86400000 * daysFromCivil y m d)
      else none
    else none
  | _ => none

/-- JS `a.airDate ? new Date(a.airDate).getTime() : 0` — `none` is `NaN`. -/
def airTimeMs (airDate : Option String) : Option Int :=
  match airDate with
  | none => some 0
  | some s => if s = "" then some 0 else parseIsoDate s

/-! ## Ranker (`findRelatedEpisodes`) -/

/-- The sort comparator of `findRelatedEpisodes`: score difference when
outside the 0.05 band, otherwise air-time difference (newer first). A `NaN`
comparator value is coerced to `0` as in ECMAScript `SortCompare`. -/
def jsCompare (a b : MatchResult) : ℚ :=
  if 0.05 < |a.score - b.score| then b.score - a.score
  else
    match airTimeMs a.airDate, airTimeMs b.airDate with
    | some x, some y => (y : ℚ) - (x : ℚ)
    | _, _ => 0

/-- Stable insertion into a sorted list under the comparator. -/
def insertCmp (x : MatchResult) : List MatchResult → List MatchResult
  | [] => [x]
  | y :: l => if jsCompare x y ≤ 0 then x :: y :: l else y :: insertCmp x l

/-- JS `Array.prototype.sort` with the comparator, modelled as a stable
insertion sort. ECMAScript requires the sort to be stable and specifies the
resulting order only when the comparator is consistent; for an inconsistent
comparator (the 0.05 band relation is not transitive) the order is
implementation-defined, so no theorem below depends on the concrete
interleaving this model produces — only on the output being a permutation of
the input and, under comparator transitivity on the input, on it being
comparator-sorted, both of which every conforming implementation
guarantees. -/
def jsSort (l : List MatchResult) : List MatchResult := l.foldr insertCmp []

/-- The options object of `findRelatedEpisodes`; a `none` field is an absent
( `undefined`) property, replaced by the destructuring default. -/
structure FindOptions where
  maxResults : Option Nat
  minScore : Option ℚ
  excludeSameShow : Option Bool
deriving Repr, DecidableEq

def emptyOptions : FindOptions := ⟨none, none, none⟩

def toMatchResult (candidate : Episode) (r : ScoreResult) : MatchResult :=
  { episodeId := candidate.id
    showTmdbId := candidate.showTmdbId
    showName := candidate.showName
    name := candidate.name
    overview := candidate.overview
    airDate := candidate.airDate
    seasonNumber := candidate.seasonNumber
    episodeNumber := candidate.episodeNumber
    stillPath := candidate.stillPath
    score := r.score
    matchReason := r.reason }

/-- The loop body of `findRelatedEpisodes`: skip the episode itself, skip
same-show candidates when requested, score, and keep the candidate when the
score reaches the threshold. -/
def keepCandidate (episode : Episode) (minScore : ℚ) (excludeSameShow : Bool)
    (candidate : Episode) : Option MatchResult :=
  if candidate.id = episode.id then none
  else if excludeSameShow ∧ candidate.showTmdbId = episode.showTmdbId then none
  else
    let r := calculateMatchScore episode candidate
    if minScore ≤ r.score then some (toMatchResult candidate r) else none

/-- Function `findRelatedEpisodes` of the source. -/
def findRelatedEpisodes (episode : Episode) (allEpisodes : List Episode)
    (options : FindOptions) : List MatchResult :=
  let results := allEpisodes.filterMap
    (keepCandidate episode (options.minScore.getD 0.3) (options.excludeSameShow.getD false))
  (jsSort results).take (options.maxResults.getD 5)

/-! ## General lemmas about the scorer -/

/-- The score component of `scoreAndReason`, in closed form: zero without a
name match, otherwise the clamped sum of the name term and the location/year
bonuses (with a name match present, the location bonus is always the strong
`0.2` one). -/
theorem scoreAndReason_score (nm lm ym : List String) :
    (scoreAndReason nm lm ym).score =
      if nm.length = 0 then 0
      else
        min 1 (0.5 + (min nm.length 3 : ℚ) * 0.15
          + (if 0 < lm.length then 0.2 else 0)
          + (if 0 < ym.length then 0.1 else 0)) := by
  unfold scoreAndReason
  rcases Nat.eq_zero_or_pos nm.length with h | h
  · simp [h]
  · have h0 : ¬ nm.length = 0 := Nat.pos_iff_ne_zero.mp h
    by_cases hl : 0 < lm.length <;> by_cases hy : 0 < ym.length <;>
      simp [h, h0, hl, hy]

/-- With an empty name-match list the scorer returns score `0` and the empty
reason, whatever the location/year lists are. -/
theorem scoreAndReason_nil (lm ym : List String) :
    scoreAndReason [] lm ym = ⟨0, ""⟩ := by
  unfold scoreAndReason
  simp

/-- The name term is at most `0.95` and at least `0.65` once a match exists,
and the bonuses are non-negative; packaged arithmetic facts used below. -/
theorem nameTerm_bounds (n : ℕ) (h : 0 < n) :
    0.65 ≤ 0.5 + (min n 3 : ℚ) * 0.15 ∧ 0.5 + (min n 3 : ℚ) * 0.15 ≤ 0.95 := by
  have h1 : 1 ≤ min n 3 := by omega
  have h3 : min n 3 ≤ 3 := Nat.min_le_right n 3
  have hc1 : (1 : ℚ) ≤ (min n 3 : ℚ) := by exact_mod_cast h1
  have hc3 : (min n 3 : ℚ) ≤ 3 := by exact_mod_cast h3
  constructor <;> nlinarith

theorem bonus_nonneg (c : Prop) [Decidable c] (v : ℚ) (hv : 0 ≤ v) :
    (0 : ℚ) ≤ if c then v else 0 := by
  split <;> simp [hv]

/-! ## C6: score bounds -/

/-- C6. Score bounds: for every ordered pair of episodes the score returned
by `calculateMatchScore` lies in `[0, 1]` — every additive contribution is
non-negative and the final result is clamped by `min 1`. -/
theorem calculateMatchScore_score_bounds (A B : Episode) :
    0 ≤ (calculateMatchScore A B).score ∧ (calculateMatchScore A B).score ≤ 1 := by
  unfold calculateMatchScore
  split
  · norm_num
  · rw [scoreAndReason_score]
    split
    · norm_num
    · rename_i hn
      have hpos : 0 < (nameMatchesOf A B).length := Nat.pos_of_ne_zero hn
      have hb := nameTerm_bounds _ hpos
      have hl := bonus_nonneg (0 < (sharedLocationsOf A B).length) (0.2 : ℚ) (by norm_num)
      have hy := bonus_nonneg (0 < (sharedYearsOf A B).length) (0.1 : ℚ) (by norm_num)
      constructor
      · apply le_min (by norm_num)
        linarith [hb.1]
      · exact min_le_left _ _

/-! ## C1: the name-match gate -/

/-- If no ordered pair of extracted names contributes (neither an exact match
nor a both-two-part equal-surname match), the `nameMatches` array is empty. -/
theorem nameMatchList_eq_nil {xs ys : List String}
    (h : ∀ s ∈ xs, ∀ t ∈ ys, pairContribution s t = none) :
    nameMatchList xs ys = [] := by
  unfold nameMatchList
  rw [List.flatMap_eq_nil_iff]
  intro s hs
  rw [List.filterMap_eq_nil_iff]
  intro t ht
  exact h s hs t ht

/-- C1. Name-match gate: if the name sets extracted from the two episodes'
texts share no pair that matches exactly or by equal final (surname) token
(under the code's split-on-space, both-parts-at-least-two rule), then
`calculateMatchScore` returns score `0` and reason `""`, regardless of any
shared locations or shared years. -/
theorem calculateMatchScore_name_gate (A B : Episode)
    (h : ∀ s ∈ (episodeTerms A).names, ∀ t ∈ (episodeTerms B).names,
      s ≠ t ∧ ¬ (2 ≤ (nameParts s).length ∧ 2 ≤ (nameParts t).length ∧
        lastPart s = lastPart t)) :
    calculateMatchScore A B = ⟨0, ""⟩ := by
  unfold calculateMatchScore
  split
  · rfl
  · have hnil : nameMatchesOf A B = [] := by
      apply nameMatchList_eq_nil
      intro s hs t ht
      obtain ⟨hne, hns⟩ := h s hs t ht
      unfold pairContribution
      rw [if_neg hne, if_neg hns]
    rw [hnil, scoreAndReason_nil]

/-- Episodes used in the C1 witness: they share the location `texas` and
the year `1999` but no person-name signal. -/
def locOnlyA : Episode := ⟨1, 10, "S", "Austin, Texas. 1999.", none, none, 1, 1, none⟩

def locOnlyB : Episode := ⟨2, 11, "T", "Dallas, Texas. 1999.", none, none, 1, 1, none⟩

/-- Witness for C1: a concrete pair sharing a location and a year but no
name signal is scored `(0, "")`. -/
theorem calculateMatchScore_name_gate_witness :
    (∀ s ∈ (episodeTerms locOnlyA).names, ∀ t ∈ (episodeTerms locOnlyB).names,
      s ≠ t ∧ ¬ (2 ≤ (nameParts s).length ∧ 2 ≤ (nameParts t).length ∧
        lastPart s = lastPart t)) ∧
    calculateMatchScore locOnlyA locOnlyB = ⟨0, ""⟩ :=
  ⟨by decide, calculateMatchScore_name_gate locOnlyA locOnlyB (by decide)⟩

/-! ## C2: score symmetry -/

theorem filterMap_length_countP (f : String → Option String) (ys : List String) :
    (ys.filterMap f).length = ys.countP (fun t => (f t).isSome) := by
  induction ys with
  | nil => rfl
  | cons y ys ih =>
    cases h : f y <;>
      simp [List.filterMap_cons, h, List.countP_cons, ih]

theorem sum_map_add_nat (f g : String → ℕ) (l : List String) :
    (l.map (fun a => f a + g a)).sum = (l.map f).sum + (l.map g).sum := by
  induction l with
  | nil => rfl
  | cons a l ih => simp [ih]; omega

theorem countP_eq_sum_map (p : String → Bool) (l : List String) :
    l.countP p = (l.map (fun a => if p a then 1 else 0)).sum := by
  induction l with
  | nil => rfl
  | cons a l ih => rw [List.countP_cons, List.map_cons, List.sum_cons, ih]; omega

/-- Double-counting over the two name lists is symmetric for a symmetric
pair predicate. -/
theorem sum_countP_comm (p : String → String → Bool) (hsym : ∀ s t, p s t = p t s)
    (xs ys : List String) :
    (xs.map (fun s => ys.countP (p s))).sum
      = (ys.map (fun t => xs.countP (fun s => p s t))).sum := by
  induction xs with
  | nil => simp [List.countP_nil]
  | cons x xs ih =>
    rw [List.map_cons, List.sum_cons, ih]
    have hcons : (ys.map (fun t => (x :: xs).countP (fun s => p s t))).sum
        = (ys.map (fun t => xs.countP (fun s => p s t) + if p x t then 1 else 0)).sum := by
      congr 1
      apply List.map_congr_left
      intro t _
      rw [List.countP_cons]
    rw [hcons, sum_map_add_nat, countP_eq_sum_map (p x)]
    have : (ys.map (fun a => if p x a then 1 else 0)).sum
        = (ys.map (fun t => if p t x then 1 else 0)).sum := by
      congr 1
      apply List.map_congr_left
      intro t _
      rw [hsym x t]
    omega

/-- Whether an ordered pair of names contributes is symmetric. -/
theorem pairContribution_isSome_comm (s t : String) :
    (pairContribution s t).isSome = (pairContribution t s).isSome := by
  unfold pairContribution
  by_cases h : s = t
  · subst h; simp
  · have h' : ¬ t = s := fun e => h e.symm
    by_cases hc : 2 ≤ (nameParts s).length ∧ 2 ≤ (nameParts t).length ∧
        lastPart s = lastPart t
    · have hc' : 2 ≤ (nameParts t).length ∧ 2 ≤ (nameParts s).length ∧
          lastPart t = lastPart s := ⟨hc.2.1, hc.1, hc.2.2.symm⟩
      rw [if_neg h, if_neg h', if_pos hc, if_pos hc']
      rfl
    · have hc' : ¬ (2 ≤ (nameParts t).length ∧ 2 ≤ (nameParts s).length ∧
          lastPart t = lastPart s) := fun hx => hc ⟨hx.2.1, hx.1, hx.2.2.symm⟩
      rw [if_neg h, if_neg h', if_neg hc, if_neg hc']

/-- The number of entries pushed into `nameMatches` is symmetric in the two
episodes. -/
theorem nameMatchList_length_comm (xs ys : List String) :
    (nameMatchList xs ys).length = (nameMatchList ys xs).length := by
  unfold nameMatchList
  rw [List.length_flatMap, List.length_flatMap]
  have hxs : (List.map (List.length ∘ fun s => ys.filterMap (pairContribution s)) xs).sum
      = (xs.map (fun s => ys.countP (fun t => (pairContribution s t).isSome))).sum := by
    congr 1
    apply List.map_congr_left
    intro s _
    exact filterMap_length_countP (pairContribution s) ys
  have hys : (List.map (List.length ∘ fun t => xs.filterMap (pairContribution t)) ys).sum
      = (ys.map (fun t => xs.countP (fun s => (pairContribution t s).isSome))).sum := by
    congr 1
    apply List.map_congr_left
    intro t _
    exact filterMap_length_countP (pairContribution t) xs
  rw [hxs, hys]
  rw [sum_countP_comm (fun s t => (pairContribution s t).isSome)
    pairContribution_isSome_comm xs ys]
  congr 1
  apply List.map_congr_left
  intro t _
  apply List.countP_congr
  intro s _
  rw [pairContribution_isSome_comm s t]

/-- Non-emptiness of a shared-term filter is symmetric. -/
theorem shared_filter_pos_comm (xs ys : List String) :
    (0 < (xs.filter (fun v => decide (v ∈ ys))).length ↔
      0 < (ys.filter (fun v => decide (v ∈ xs))).length) := by
  rw [List.length_pos, List.length_pos]
  constructor <;>
    · intro h
      rcases List.exists_mem_of_ne_nil _ h with ⟨v, hv⟩
      rw [List.mem_filter] at hv
      intro hnil
      have := List.filter_eq_nil_iff.mp hnil v (by simpa using hv.2)
      simp [hv.1] at this

/-- C2. Score symmetry: the score component of `calculateMatchScore` is
symmetric in its two arguments — the name-pair match count, the location-set
intersection non-emptiness and the year-set intersection non-emptiness are
all symmetric. -/
theorem calculateMatchScore_score_symm (A B : Episode) :
    (calculateMatchScore A B).score = (calculateMatchScore B A).score := by
  unfold calculateMatchScore
  by_cases h : A.id = B.id
  · rw [if_pos h, if_pos h.symm]
  · rw [if_neg h, if_neg (fun e => h e.symm)]
    rw [scoreAndReason_score, scoreAndReason_score]
    have h1 : (nameMatchesOf A B).length = (nameMatchesOf B A).length :=
      nameMatchList_length_comm _ _
    have h2 : 0 < (sharedLocationsOf A B).length ↔ 0 < (sharedLocationsOf B A).length :=
      shared_filter_pos_comm _ _
    have h3 : 0 < (sharedYearsOf A B).length ↔ 0 < (sharedYearsOf B A).length :=
      shared_filter_pos_comm _ _
    rw [h1]
    simp only [h2, h3]

/-! ## C5: the name score term -/

/-- C5. Name score formula: for an ordered pair of distinct-id episodes with
a non-empty name-match list, the score is the clamped sum of the name term
`0.5 + 0.15 × min(matchCount, 3)` and the location/year bonuses; the name
term is exactly `0.65` for one match and never exceeds `0.95` on its own. -/
theorem calculateMatchScore_name_term (A B : Episode) (hid : A.id ≠ B.id)
    (h : 0 < (nameMatchesOf A B).length) :
    (calculateMatchScore A B).score
        = min 1 (0.5 + (min (nameMatchesOf A B).length 3 : ℚ) * 0.15
          + (if 0 < (sharedLocationsOf A B).length then 0.2 else 0)
          + (if 0 < (sharedYearsOf A B).length then 0.1 else 0))
      ∧ ((nameMatchesOf A B).length = 1 →
          0.5 + (min (nameMatchesOf A B).length 3 : ℚ) * 0.15 = 0.65)
      ∧ 0.5 + (min (nameMatchesOf A B).length 3 : ℚ) * 0.15 ≤ 0.95 := by
  refine ⟨?_, ?_, (nameTerm_bounds _ h).2⟩
  · unfold calculateMatchScore
    rw [if_neg hid, scoreAndReason_score, if_neg (Nat.pos_iff_ne_zero.mp h)]
  · intro h1
    rw [h1]
    norm_num

/-- Episodes used in the C5/C7/C8 witnesses: a single exact shared name
`john doe`, no shared locations or years. -/
def oneNameA : Episode := ⟨1, 10, "S", "John Doe", none, none, 1, 1, none⟩

def oneNameB : Episode := ⟨2, 11, "T", "John Doe", none, some "2020-05-04", 1, 1, none⟩

/-- Witness for C5 at a concrete pair with exactly one name match: the score
is `min 1 (0.65 + 0 + 0) = 0.65`. -/
theorem calculateMatchScore_name_term_witness :
    oneNameA.id ≠ oneNameB.id ∧ 0 < (nameMatchesOf oneNameA oneNameB).length ∧
      ((calculateMatchScore oneNameA oneNameB).score
          = min 1 (0.5 + (min (nameMatchesOf oneNameA oneNameB).length 3 : ℚ) * 0.15
            + (if 0 < (sharedLocationsOf oneNameA oneNameB).length then 0.2 else 0)
            + (if 0 < (sharedYearsOf oneNameA oneNameB).length then 0.1 else 0))
        ∧ ((nameMatchesOf oneNameA oneNameB).length = 1 →
            0.5 + (min (nameMatchesOf oneNameA oneNameB).length 3 : ℚ) * 0.15 = 0.65)
        ∧ 0.5 + (min (nameMatchesOf oneNameA oneNameB).length 3 : ℚ) * 0.15 ≤ 0.95) :=
  ⟨by decide, by decide,
    calculateMatchScore_name_term oneNameA oneNameB (by decide) (by decide)⟩

/-! ## Membership through the sort and the ranker -/

theorem mem_insertCmp {x z : MatchResult} {l : List MatchResult} :
    z ∈ insertCmp x l ↔ z = x ∨ z ∈ l := by
  induction l with
  | nil => simp [insertCmp]
  | cons y l ih =>
    unfold insertCmp
    split
    · simp
    · rw [List.mem_cons, ih, List.mem_cons]
      tauto

theorem mem_jsSort {z : MatchResult} {l : List MatchResult} :
    z ∈ jsSort l ↔ z ∈ l := by
  unfold jsSort
  induction l with
  | nil => simp
  | cons y l ih =>
    rw [List.foldr_cons, mem_insertCmp, List.mem_cons, ih]

theorem insertCmp_perm (x : MatchResult) (l : List MatchResult) :
    (insertCmp x l).Perm (x :: l) := by
  induction l with
  | nil => exact List.Perm.refl _
  | cons y l ih =>
    unfold insertCmp
    split
    · exact List.Perm.refl _
    · exact (ih.cons y).trans (List.Perm.swap x y l)

/-- The sorted list is a permutation of its input — the one output guarantee
ECMAScript gives for an inconsistent comparator. -/
theorem jsSort_perm (l : List MatchResult) : (jsSort l).Perm l := by
  unfold jsSort
  induction l with
  | nil => exact List.Perm.refl _
  | cons y l ih =>
    rw [List.foldr_cons]
    exact (insertCmp_perm y _).trans (ih.cons y)

/-- What a kept candidate looks like. -/
theorem keepCandidate_eq_some {episode candidate : Episode} {minScore : ℚ}
    {excludeSameShow : Bool} {r : MatchResult}
    (h : keepCandidate episode minScore excludeSameShow candidate = some r) :
    candidate.id ≠ episode.id ∧
      r = toMatchResult candidate (calculateMatchScore episode candidate) ∧
      minScore ≤ r.score := by
  unfold keepCandidate at h
  by_cases hce : candidate.id = episode.id
  · rw [if_pos hce] at h; exact absurd h (by simp)
  · rw [if_neg hce] at h
    by_cases hshow : excludeSameShow ∧ candidate.showTmdbId = episode.showTmdbId
    · rw [if_pos hshow] at h; exact absurd h (by simp)
    · rw [if_neg hshow] at h
      by_cases hsc : minScore ≤ (calculateMatchScore episode candidate).score
      · rw [if_pos hsc, Option.some_inj] at h
        subst h
        exact ⟨hce, rfl, hsc⟩
      · rw [if_neg hsc] at h; exact absurd h (by simp)

/-- Everything the ranker returns comes from its kept-candidates list. -/
theorem mem_findRelatedEpisodes {episode : Episode} {allEpisodes : List Episode}
    {options : FindOptions} {r : MatchResult}
    (h : r ∈ findRelatedEpisodes episode allEpisodes options) :
    ∃ candidate ∈ allEpisodes,
      candidate.id ≠ episode.id ∧
      r = toMatchResult candidate (calculateMatchScore episode candidate) ∧
      options.minScore.getD 0.3 ≤ r.score := by
  unfold findRelatedEpisodes at h
  have h1 : r ∈ jsSort (allEpisodes.filterMap
      (keepCandidate episode (options.minScore.getD 0.3)
        (options.excludeSameShow.getD false))) := List.take_subset _ _ h
  rw [mem_jsSort, List.mem_filterMap] at h1
  obtain ⟨candidate, hc, hr⟩ := h1
  exact ⟨candidate, hc, keepCandidate_eq_some hr⟩

/-! ## C7: no self-match -/

/-- C7. No self-match: the ranker never returns an entry whose `episodeId`
equals the source episode's id (for any pool, containing the episode or
not), and `calculateMatchScore` of an episode with itself is `(0, "")`. -/
theorem no_self_match :
    (∀ (E : Episode) (pool : List Episode) (options : FindOptions)
      (r : MatchResult), r ∈ findRelatedEpisodes E pool options → r.episodeId ≠ E.id) ∧
    (∀ E : Episode, calculateMatchScore E E = ⟨0, ""⟩) := by
  constructor
  · intro E pool options r hr
    obtain ⟨candidate, _, hne, hrEq, _⟩ := mem_findRelatedEpisodes hr
    rw [hrEq]
    exact hne
  · intro E
    unfold calculateMatchScore
    rw [if_pos rfl]

/-- The concrete score of the `oneName` pair: one exact name match, no
location or year bonus. -/
theorem calcScore_oneName :
    calculateMatchScore oneNameA oneNameB = ⟨0.65, "John Doe"⟩ := by
  have h1 : calculateMatchScore oneNameA oneNameB = scoreAndReason ["john doe"] [] [] := by
    unfold calculateMatchScore
    rw [if_neg (by decide)]
    have hn : nameMatchesOf oneNameA oneNameB = ["john doe"] := by decide
    have hl : sharedLocationsOf oneNameA oneNameB = [] := by decide
    have hy : sharedYearsOf oneNameA oneNameB = [] := by decide
    rw [hn, hl, hy]
  have hs : (scoreAndReason ["john doe"] [] []).score = 0.65 := by
    rw [scoreAndReason_score]
    norm_num
  have hr : (scoreAndReason ["john doe"] [] []).reason = "John Doe" := by rfl
  rw [h1, show scoreAndReason ["john doe"] [] []
    = ⟨(scoreAndReason ["john doe"] [] []).score,
       (scoreAndReason ["john doe"] [] []).reason⟩ from rfl, hs, hr]

/-- The kept-candidates list of the `oneName` ranking call. -/
theorem keepList_oneName :
    [oneNameA, oneNameB].filterMap
      (keepCandidate oneNameA ((emptyOptions.minScore).getD 0.3)
        ((emptyOptions.excludeSameShow).getD false))
      = [toMatchResult oneNameB ⟨0.65, "John Doe"⟩] := by
  have hk1 : keepCandidate oneNameA ((emptyOptions.minScore).getD 0.3)
      ((emptyOptions.excludeSameShow).getD false) oneNameA = none := by
    unfold keepCandidate
    rw [if_pos rfl]
  have hk2 : keepCandidate oneNameA ((emptyOptions.minScore).getD 0.3)
      ((emptyOptions.excludeSameShow).getD false) oneNameB
      = some (toMatchResult oneNameB ⟨0.65, "John Doe"⟩) := by
    unfold keepCandidate
    rw [if_neg (by decide), if_neg (by decide), calcScore_oneName,
      if_pos (by norm_num [emptyOptions])]
  rw [List.filterMap_cons, hk1, List.filterMap_cons, hk2, List.filterMap_nil]

theorem findRelated_oneName_eq :
    findRelatedEpisodes oneNameA [oneNameA, oneNameB] emptyOptions
      = [toMatchResult oneNameB ⟨0.65, "John Doe"⟩] := by
  unfold findRelatedEpisodes
  rw [keepList_oneName]
  rfl

/-- Witness for C7: a concrete ranking call returning a non-empty list whose
single entry is not the source episode. -/
theorem no_self_match_witness :
    (toMatchResult oneNameB (⟨0.65, "John Doe"⟩ : ScoreResult)
        ∈ findRelatedEpisodes oneNameA [oneNameA, oneNameB] emptyOptions) ∧
      (toMatchResult oneNameB (⟨0.65, "John Doe"⟩ : ScoreResult)).episodeId
        ≠ oneNameA.id :=
  ⟨by rw [findRelated_oneName_eq]; exact List.mem_singleton.mpr rfl,
    no_self_match.1 oneNameA [oneNameA, oneNameB] emptyOptions _
      (by rw [findRelated_oneName_eq]; exact List.mem_singleton.mpr rfl)⟩

/-! ## C8: threshold filter, result cap, empty pool -/

/-- C8. Every returned `MatchResult` has score at least the resolved
`minScore` (default `0.3`), the returned list never exceeds the resolved
`maxResults` (default `5`), and an empty candidate pool yields the empty
list. -/
theorem findRelatedEpisodes_threshold_cap :
    (∀ (E : Episode) (pool : List Episode) (options : FindOptions) (r : MatchResult),
      r ∈ findRelatedEpisodes E pool options → options.minScore.getD 0.3 ≤ r.score) ∧
    (∀ (E : Episode) (pool : List Episode) (options : FindOptions),
      (findRelatedEpisodes E pool options).length ≤ options.maxResults.getD 5) ∧
    (∀ (E : Episode) (options : FindOptions), findRelatedEpisodes E [] options = []) := by
  refine ⟨?_, ?_, ?_⟩
  · intro E pool options r hr
    obtain ⟨candidate, _, _, _, hsc⟩ := mem_findRelatedEpisodes hr
    exact hsc
  · intro E pool options
    unfold findRelatedEpisodes
    exact List.length_take_le _ _
  · intro E options
    unfold findRelatedEpisodes
    rw [List.filterMap_nil]
    exact List.take_nil

/-- Witness for C8 at a concrete call: the returned list is `[0.65]`-scored,
above the default threshold `0.3`, of length at most `5`, and the empty pool
yields `[]`. -/
theorem findRelatedEpisodes_threshold_cap_witness :
    (toMatchResult oneNameB (⟨0.65, "John Doe"⟩ : ScoreResult)
        ∈ findRelatedEpisodes oneNameA [oneNameA, oneNameB] emptyOptions) ∧
      emptyOptions.minScore.getD 0.3
        ≤ (toMatchResult oneNameB (⟨0.65, "John Doe"⟩ : ScoreResult)).score ∧
      (findRelatedEpisodes oneNameA [oneNameA, oneNameB] emptyOptions).length
        ≤ emptyOptions.maxResults.getD 5 ∧
      findRelatedEpisodes oneNameA [] emptyOptions = [] :=
  ⟨by rw [findRelated_oneName_eq]; exact List.mem_singleton.mpr rfl,
    findRelatedEpisodes_threshold_cap.1 oneNameA [oneNameA, oneNameB] emptyOptions _
      (by rw [findRelated_oneName_eq]; exact List.mem_singleton.mpr rfl),
    findRelatedEpisodes_threshold_cap.2.1 oneNameA [oneNameA, oneNameB] emptyOptions,
    findRelatedEpisodes_threshold_cap.2.2 oneNameA emptyOptions⟩

/-! ## C10: the score gap and the threshold filter -/

/-- C10, amended. The score of every ordered pair is either exactly `0` or
at least `0.65`; consequently, for every strictly positive `minScore` up to
`0.65` the threshold comparison `minScore ≤ score` used by the ranker's
filter holds exactly for the non-zero scores. (The claim's original
quantification over every `minScore ≤ 0.65` fails at `minScore = 0`, where
zero-score candidates pass the filter; see the counterexample.) -/
theorem score_gap :
    (∀ A B : Episode, (calculateMatchScore A B).score = 0
      ∨ 0.65 ≤ (calculateMatchScore A B).score) ∧
    (∀ m : ℚ, 0 < m → m ≤ 0.65 → ∀ A B : Episode,
      (m ≤ (calculateMatchScore A B).score ↔ (calculateMatchScore A B).score ≠ 0)) := by
  have hgap : ∀ A B : Episode, (calculateMatchScore A B).score = 0
      ∨ 0.65 ≤ (calculateMatchScore A B).score := by
    intro A B
    unfold calculateMatchScore
    split
    · left; rfl
    · rw [scoreAndReason_score]
      split
      · left; rfl
      · right
        rename_i hn
        have hpos : 0 < (nameMatchesOf A B).length := Nat.pos_of_ne_zero hn
        have hb := (nameTerm_bounds _ hpos).1
        have hl := bonus_nonneg (0 < (sharedLocationsOf A B).length) (0.2 : ℚ) (by norm_num)
        have hy := bonus_nonneg (0 < (sharedYearsOf A B).length) (0.1 : ℚ) (by norm_num)
        apply le_min (by norm_num)
        linarith
  refine ⟨hgap, ?_⟩
  intro m hm hm65 A B
  rcases hgap A B with h0 | h65
  · rw [h0]
    constructor
    · intro h; linarith
    · intro h; exact absurd rfl h
  · constructor
    · intro _
      intro h0
      rw [h0] at h65
      linarith
    · intro _
      linarith

/-- Witness for C10 at the default threshold `0.3`: the filter comparison
holds exactly for non-zero scores. -/
theorem score_gap_witness :
    (0 : ℚ) < 0.3 ∧ (0.3 : ℚ) ≤ 0.65 ∧
      ((0.3 : ℚ) ≤ (calculateMatchScore oneNameA oneNameB).score ↔
        (calculateMatchScore oneNameA oneNameB).score ≠ 0) :=
  ⟨by norm_num, by norm_num,
    score_gap.2 0.3 (by norm_num) (by norm_num) oneNameA oneNameB⟩

/-- Options with `minScore: 0`, a value the destructuring default does not
replace. -/
def zeroMinOptions : FindOptions := ⟨none, some 0, none⟩

/-- Counterexample to C10 as stated: with `minScore = 0` — which is "at or
below 0.65" — the threshold filter does not remove a zero-score candidate:
the ranker returns it. -/
theorem score_gap_counterexample :
    zeroMinOptions.minScore.getD 0.3 ≤ 0.65 ∧
      (findRelatedEpisodes locOnlyA [locOnlyB] zeroMinOptions).map
          (fun r => r.score) = [0] := by
  constructor
  · norm_num [zeroMinOptions]
  · unfold findRelatedEpisodes
    have hk : keepCandidate locOnlyA ((zeroMinOptions.minScore).getD 0.3)
        ((zeroMinOptions.excludeSameShow).getD false) locOnlyB
        = some (toMatchResult locOnlyB ⟨0, ""⟩) := by
      unfold keepCandidate
      rw [if_neg (by decide), if_neg (by decide),
        calculateMatchScore_name_gate locOnlyA locOnlyB (by decide),
        if_pos (by norm_num [zeroMinOptions])]
    rw [List.filterMap_cons, hk, List.filterMap_nil]
    rfl

/-! ## C3: ordering of the ranked list -/

/-- The comparator is antisymmetric in value (both branches negate under
swapping, and the band condition is symmetric). -/
theorem jsCompare_neg (a b : MatchResult) : jsCompare b a = - jsCompare a b := by
  unfold jsCompare
  rw [abs_sub_comm b.score a.score]
  split
  · ring
  · rcases airTimeMs a.airDate with _ | x <;> rcases airTimeMs b.airDate with _ | y <;>
      simp [neg_sub]

theorem jsCompare_total {a b : MatchResult} (h : ¬ jsCompare a b ≤ 0) :
    jsCompare b a ≤ 0 := by
  rw [jsCompare_neg]
  linarith [lt_of_not_le h]

/-- Inserting into a comparator-consistent list keeps consecutive entries
comparator-consistent, and the new head is the inserted element or the old
head. -/
theorem chain'_insertCmp (x : MatchResult) (l : List MatchResult)
    (h : List.Chain' (fun a b => jsCompare a b ≤ 0) l) :
    List.Chain' (fun a b => jsCompare a b ≤ 0) (insertCmp x l) ∧
      (∀ z, (insertCmp x l).head? = some z → z = x ∨ l.head? = some z) := by
  induction l with
  | nil =>
    constructor
    · simp [insertCmp]
    · intro z hz
      simp [insertCmp] at hz
      exact Or.inl hz.symm
  | cons y l ih =>
    rw [List.chain'_cons'] at h
    obtain ⟨hy, hl⟩ := h
    obtain ⟨ihc, ihh⟩ := ih hl
    unfold insertCmp
    split
    · rename_i hxy
      constructor
      · rw [List.chain'_cons]
        exact ⟨hxy, List.chain'_cons'.mpr ⟨hy, hl⟩⟩
      · intro z hz
        rw [List.head?_cons, Option.some_inj] at hz
        exact Or.inl hz.symm
    · rename_i hxy
      constructor
      · rw [List.chain'_cons']
        refine ⟨?_, ihc⟩
        intro z hz
        rcases ihh z hz with rfl | hz'
        · exact jsCompare_total hxy
        · exact hy z hz'
      · intro z hz
        rw [List.head?_cons, Option.some_inj] at hz
        exact Or.inr (by rw [List.head?_cons, hz])

/-- The stable insertion sort leaves every pair of consecutive entries
comparator-consistent. -/
theorem chain'_jsSort (l : List MatchResult) :
    List.Chain' (fun a b => jsCompare a b ≤ 0) (jsSort l) := by
  unfold jsSort
  induction l with
  | nil => simp
  | cons y l ih => exact (chain'_insertCmp y _ ih).1

/-- Under transitivity of the relation on the list's members, a chain head
relates to every later member. -/
theorem chain'_head_rel {α : Type} {R : α → α → Prop} :
    ∀ (x : α) (xs : List α), List.Chain' R (x :: xs) →
      (∀ a ∈ x :: xs, ∀ b ∈ x :: xs, ∀ c ∈ x :: xs, R a b → R b c → R a c) →
      ∀ y ∈ xs, R x y := by
  intro x xs
  induction xs generalizing x with
  | nil =>
    intro _ _ y hy
    cases hy
  | cons z xs ih =>
    intro hc ht y hy
    rw [List.chain'_cons] at hc
    obtain ⟨hxz, hczxs⟩ := hc
    rcases List.mem_cons.mp hy with rfl | hy'
    · exact hxz
    · have hzy : R z y := by
        refine ih z hczxs ?_ y hy'
        intro a ha b hb c hc' hab hbc
        exact ht a (List.mem_cons_of_mem x ha) b (List.mem_cons_of_mem x hb)
          c (List.mem_cons_of_mem x hc') hab hbc
      exact ht x (List.mem_cons_self x (z :: xs))
        z (List.mem_cons_of_mem x (List.mem_cons_self z xs))
        y (List.mem_cons_of_mem x (List.mem_cons_of_mem z hy')) hxz hzy

/-- Consecutive comparator-consistency upgrades to all-pairs ordering when
the relation is transitive on the list's members. -/
theorem chain'_pairwise_of_trans {α : Type} {R : α → α → Prop} :
    ∀ l : List α, List.Chain' R l →
      (∀ a ∈ l, ∀ b ∈ l, ∀ c ∈ l, R a b → R b c → R a c) →
      List.Pairwise R l := by
  intro l
  induction l with
  | nil =>
    intro _ _
    exact List.Pairwise.nil
  | cons x xs ih =>
    intro hc ht
    have hcxs : List.Chain' R xs := (List.chain'_cons'.mp hc).2
    refine List.Pairwise.cons (chain'_head_rel x xs hc ht) (ih hcxs ?_)
    intro a ha b hb c hc' hab hbc
    exact ht a (List.mem_cons_of_mem x ha) b (List.mem_cons_of_mem x hb)
      c (List.mem_cons_of_mem x hc') hab hbc

/-- When the comparator is transitive on the input — the consistent case, the
only one in which ECMAScript specifies the sort order — the sorted list is
comparator-ordered in every pair. -/
theorem jsSort_pairwise_of_trans (l : List MatchResult)
    (ht : ∀ a ∈ l, ∀ b ∈ l, ∀ c ∈ l,
      jsCompare a b ≤ 0 → jsCompare b c ≤ 0 → jsCompare a c ≤ 0) :
    List.Pairwise (fun a b => jsCompare a b ≤ 0) (jsSort l) := by
  refine chain'_pairwise_of_trans _ (chain'_jsSort l) ?_
  intro a ha b hb c hc
  exact ht a (mem_jsSort.mp ha) b (mem_jsSort.mp hb) c (mem_jsSort.mp hc)

/-- C3, amended. When the sort comparator is transitive on the kept
candidates (those surviving the self/same-show skips and the score
threshold) — that is, when the `0.05` banding is consistent there, the only
case in which ECMAScript specifies the order `Array.prototype.sort` returns
— the list returned by `findRelatedEpisodes` is ordered in every pair of
entries: score descending when the two scores differ by more than `0.05`,
parsed air time (epoch milliseconds, `0` for a missing date) descending when
they differ by at most `0.05`. Without that transitivity no such guarantee
exists in any conforming engine: the result is only some permutation of the
kept candidates, and `findRelatedEpisodes_pairwise_counterexample` exhibits
a pool on which *no* permutation satisfies the claimed all-pairs ordering. -/
theorem findRelatedEpisodes_sorted (E : Episode) (pool : List Episode)
    (options : FindOptions)
    (ht : ∀ a ∈ pool.filterMap (keepCandidate E (options.minScore.getD 0.3)
            (options.excludeSameShow.getD false)),
          ∀ b ∈ pool.filterMap (keepCandidate E (options.minScore.getD 0.3)
            (options.excludeSameShow.getD false)),
          ∀ c ∈ pool.filterMap (keepCandidate E (options.minScore.getD 0.3)
            (options.excludeSameShow.getD false)),
          jsCompare a b ≤ 0 → jsCompare b c ≤ 0 → jsCompare a c ≤ 0) :
    List.Pairwise (fun a b => jsCompare a b ≤ 0)
      (findRelatedEpisodes E pool options) := by
  unfold findRelatedEpisodes
  exact (jsSort_pairwise_of_trans _ ht).sublist (List.take_sublist _ _)

/-- Witness for the amended C3: on the `oneName` pool the kept list is a
singleton, the comparator is trivially transitive on it, and the returned
list is pairwise ordered. -/
theorem findRelatedEpisodes_sorted_witness :
    (∀ a ∈ [oneNameA, oneNameB].filterMap
        (keepCandidate oneNameA ((emptyOptions.minScore).getD 0.3)
          ((emptyOptions.excludeSameShow).getD false)),
      ∀ b ∈ [oneNameA, oneNameB].filterMap
        (keepCandidate oneNameA ((emptyOptions.minScore).getD 0.3)
          ((emptyOptions.excludeSameShow).getD false)),
      ∀ c ∈ [oneNameA, oneNameB].filterMap
        (keepCandidate oneNameA ((emptyOptions.minScore).getD 0.3)
          ((emptyOptions.excludeSameShow).getD false)),
      jsCompare a b ≤ 0 → jsCompare b c ≤ 0 → jsCompare a c ≤ 0) ∧
    List.Pairwise (fun a b => jsCompare a b ≤ 0)
      (findRelatedEpisodes oneNameA [oneNameA, oneNameB] emptyOptions) := by
  have ht : ∀ a ∈ [oneNameA, oneNameB].filterMap
      (keepCandidate oneNameA ((emptyOptions.minScore).getD 0.3)
        ((emptyOptions.excludeSameShow).getD false)),
      ∀ b ∈ [oneNameA, oneNameB].filterMap
        (keepCandidate oneNameA ((emptyOptions.minScore).getD 0.3)
          ((emptyOptions.excludeSameShow).getD false)),
      ∀ c ∈ [oneNameA, oneNameB].filterMap
        (keepCandidate oneNameA ((emptyOptions.minScore).getD 0.3)
          ((emptyOptions.excludeSameShow).getD false)),
      jsCompare a b ≤ 0 → jsCompare b c ≤ 0 → jsCompare a c ≤ 0 := by
    rw [keepList_oneName]
    intro a ha b hb c hc h1 h2
    rw [List.mem_singleton.mp ha, List.mem_singleton.mp hc]
    rw [List.mem_singleton.mp ha, List.mem_singleton.mp hb] at h1
    exact h1
  exact ⟨ht, findRelatedEpisodes_sorted oneNameA [oneNameA, oneNameB] emptyOptions ht⟩

/-- The claim's tie-break time: parsed air time, epoch zero when absent. -/
def claimTime (r : MatchResult) : Int := (airTimeMs r.airDate).getD 0

/-- The ordering the claim asserts between every (not only consecutive) pair
of returned entries: air date descending within the `0.05` score band, score
descending outside it. -/
def claimOrdered (a b : MatchResult) : Prop :=
  if |a.score - b.score| ≤ 0.05 then claimTime b ≤ claimTime a else b.score < a.score

/-- Source episode of the C3 counterexample: three names, a location and a
year. -/
def bandSrc : Episode :=
  ⟨100, 10, "S", "Alan Brown. Carl Dixon. Eric Foster.", some "Austin, Texas. 1999.",
    none, 1, 1, none⟩

/-- Scores `0.95` (three name matches), air date 2023. -/
def bandC1 : Episode :=
  ⟨1, 11, "T", "Alan Brown. Carl Dixon. Eric Foster.", none, some "2023-01-01", 1, 1, none⟩

/-- Scores `0.9` (two name matches and the shared year), air date 2024. -/
def bandC2 : Episode :=
  ⟨2, 12, "U", "Alan Brown. Carl Dixon. 1999.", none, some "2024-01-01", 1, 1, none⟩

/-- Scores `0.85` (one name match and the shared location), air date 2025. -/
def bandC3 : Episode :=
  ⟨3, 13, "V", "Alan Brown. Austin, Texas.", none, some "2025-01-01", 1, 1, none⟩

def bandR1 : MatchResult := toMatchResult bandC1 ⟨0.95, "Alan Brown, Carl Dixon"⟩

def bandR2 : MatchResult := toMatchResult bandC2 ⟨0.9, "Alan Brown, Carl Dixon - 1999"⟩

def bandR3 : MatchResult := toMatchResult bandC3 ⟨0.85, "Alan Brown - Austin"⟩

theorem calcScore_bandC1 : calculateMatchScore bandSrc bandC1
    = ⟨0.95, "Alan Brown, Carl Dixon"⟩ := by
  have h1 : calculateMatchScore bandSrc bandC1
      = scoreAndReason ["alan brown", "carl dixon", "eric foster"] [] [] := by
    unfold calculateMatchScore
    rw [if_neg (by decide)]
    have hn : nameMatchesOf bandSrc bandC1
        = ["alan brown", "carl dixon", "eric foster"] := by decide
    have hl : sharedLocationsOf bandSrc bandC1 = [] := by decide
    have hy : sharedYearsOf bandSrc bandC1 = [] := by decide
    rw [hn, hl, hy]
  have hs : (scoreAndReason ["alan brown", "carl dixon", "eric foster"] [] []).score
      = 0.95 := by
    rw [scoreAndReason_score]
    norm_num
  have hr : (scoreAndReason ["alan brown", "carl dixon", "eric foster"] [] []).reason
      = "Alan Brown, Carl Dixon" := by rfl
  rw [h1, show scoreAndReason ["alan brown", "carl dixon", "eric foster"] [] []
    = ⟨(scoreAndReason ["alan brown", "carl dixon", "eric foster"] [] []).score,
       (scoreAndReason ["alan brown", "carl dixon", "eric foster"] [] []).reason⟩ from rfl,
    hs, hr]

theorem calcScore_bandC2 : calculateMatchScore bandSrc bandC2
    = ⟨0.9, "Alan Brown, Carl Dixon - 1999"⟩ := by
  have h1 : calculateMatchScore bandSrc bandC2
      = scoreAndReason ["alan brown", "carl dixon"] [] ["1999"] := by
    unfold calculateMatchScore
    rw [if_neg (by decide)]
    have hn : nameMatchesOf bandSrc bandC2 = ["alan brown", "carl dixon"] := by decide
    have hl : sharedLocationsOf bandSrc bandC2 = [] := by decide
    have hy : sharedYearsOf bandSrc bandC2 = ["1999"] := by decide
    rw [hn, hl, hy]
  have hs : (scoreAndReason ["alan brown", "carl dixon"] [] ["1999"]).score = 0.9 := by
    rw [scoreAndReason_score]
    norm_num
  have hr : (scoreAndReason ["alan brown", "carl dixon"] [] ["1999"]).reason
      = "Alan Brown, Carl Dixon - 1999" := by rfl
  rw [h1, show scoreAndReason ["alan brown", "carl dixon"] [] ["1999"]
    = ⟨(scoreAndReason ["alan brown", "carl dixon"] [] ["1999"]).score,
       (scoreAndReason ["alan brown", "carl dixon"] [] ["1999"]).reason⟩ from rfl,
    hs, hr]

theorem calcScore_bandC3 : calculateMatchScore bandSrc bandC3
    = ⟨0.85, "Alan Brown - Austin"⟩ := by
  have h1 : calculateMatchScore bandSrc bandC3
      = scoreAndReason ["alan brown"] ["austin", "texas"] [] := by
    unfold calculateMatchScore
    rw [if_neg (by decide)]
    have hn : nameMatchesOf bandSrc bandC3 = ["alan brown"] := by decide
    have hl : sharedLocationsOf bandSrc bandC3 = ["austin", "texas"] := by decide
    have hy : sharedYearsOf bandSrc bandC3 = [] := by decide
    rw [hn, hl, hy]
  have hs : (scoreAndReason ["alan brown"] ["austin", "texas"] []).score = 0.85 := by
    rw [scoreAndReason_score]
    norm_num
  have hr : (scoreAndReason ["alan brown"] ["austin", "texas"] []).reason
      = "Alan Brown - Austin" := by rfl
  rw [h1, show scoreAndReason ["alan brown"] ["austin", "texas"] []
    = ⟨(scoreAndReason ["alan brown"] ["austin", "texas"] []).score,
       (scoreAndReason ["alan brown"] ["austin", "texas"] []).reason⟩ from rfl,
    hs, hr]

theorem airTime_2023 : airTimeMs (some "2023-01-01") = some 1672531200000 := by decide

theorem airTime_2024 : airTimeMs (some "2024-01-01") = some 1704067200000 := by decide

theorem airTime_2025 : airTimeMs (some "2025-01-01") = some 1735689600000 := by decide

/-- The kept-candidates list of the band pool. -/
theorem keepList_band :
    [bandC1, bandC2, bandC3].filterMap
      (keepCandidate bandSrc ((emptyOptions.minScore).getD 0.3)
        ((emptyOptions.excludeSameShow).getD false))
      = [bandR1, bandR2, bandR3] := by
  have hk1 : keepCandidate bandSrc ((emptyOptions.minScore).getD 0.3)
      ((emptyOptions.excludeSameShow).getD false) bandC1 = some bandR1 := by
    unfold keepCandidate
    rw [if_neg (by decide), if_neg (by decide), calcScore_bandC1,
      if_pos (by norm_num [emptyOptions])]
    rfl
  have hk2 : keepCandidate bandSrc ((emptyOptions.minScore).getD 0.3)
      ((emptyOptions.excludeSameShow).getD false) bandC2 = some bandR2 := by
    unfold keepCandidate
    rw [if_neg (by decide), if_neg (by decide), calcScore_bandC2,
      if_pos (by norm_num [emptyOptions])]
    rfl
  have hk3 : keepCandidate bandSrc ((emptyOptions.minScore).getD 0.3)
      ((emptyOptions.excludeSameShow).getD false) bandC3 = some bandR3 := by
    unfold keepCandidate
    rw [if_neg (by decide), if_neg (by decide), calcScore_bandC3,
      if_pos (by norm_num [emptyOptions])]
    rfl
  rw [List.filterMap_cons, hk1, List.filterMap_cons, hk2, List.filterMap_cons, hk3,
    List.filterMap_nil]

/-- On the band pool the ranker returns some permutation of the three kept
results — this, unlike the concrete order (implementation-defined for this
inconsistent comparator), holds for every ECMAScript-conforming sort. -/
theorem findRelated_band_perm :
    (findRelatedEpisodes bandSrc [bandC1, bandC2, bandC3] emptyOptions).Perm
      [bandR1, bandR2, bandR3] := by
  unfold findRelatedEpisodes
  rw [keepList_band]
  have hlen : (jsSort [bandR1, bandR2, bandR3]).length
      = ([bandR1, bandR2, bandR3] : List MatchResult).length :=
    (jsSort_perm [bandR1, bandR2, bandR3]).length_eq
  rw [List.take_of_length_le (by rw [hlen]; simp [emptyOptions])]
  exact jsSort_perm _

theorem claimTime_bandR1 : claimTime bandR1 = 1672531200000 := by
  unfold claimTime
  rw [show bandR1.airDate = some "2023-01-01" from rfl, airTime_2023]
  rfl

theorem claimTime_bandR2 : claimTime bandR2 = 1704067200000 := by
  unfold claimTime
  rw [show bandR2.airDate = some "2024-01-01" from rfl, airTime_2024]
  rfl

theorem claimTime_bandR3 : claimTime bandR3 = 1735689600000 := by
  unfold claimTime
  rw [show bandR3.airDate = some "2025-01-01" from rfl, airTime_2025]
  rfl

/-- Scores `0.95` and `0.9` are band-tied, but the `0.95` entry's air date
(2023) is older, so it may not precede the `0.9` entry (2024). -/
theorem not_claimOrdered_R1_R2 : ¬ claimOrdered bandR1 bandR2 := by
  unfold claimOrdered
  have hband : |bandR1.score - bandR2.score| ≤ 0.05 := by
    rw [show bandR1.score - bandR2.score = 0.05 by
        norm_num [bandR1, bandR2, toMatchResult],
      abs_of_nonneg (by norm_num : (0:ℚ) ≤ 0.05)]
  rw [if_pos hband, claimTime_bandR1, claimTime_bandR2]
  omega

/-- Scores `0.9` and `0.85` are band-tied, but the `0.9` entry's air date
(2024) is older, so it may not precede the `0.85` entry (2025). -/
theorem not_claimOrdered_R2_R3 : ¬ claimOrdered bandR2 bandR3 := by
  unfold claimOrdered
  have hband : |bandR2.score - bandR3.score| ≤ 0.05 := by
    rw [show bandR2.score - bandR3.score = 0.05 by
        norm_num [bandR2, bandR3, toMatchResult],
      abs_of_nonneg (by norm_num : (0:ℚ) ≤ 0.05)]
  rw [if_pos hband, claimTime_bandR2, claimTime_bandR3]
  omega

/-- Scores `0.85` and `0.95` differ by more than the band, so the `0.85`
entry may not precede the `0.95` entry. -/
theorem not_claimOrdered_R3_R1 : ¬ claimOrdered bandR3 bandR1 := by
  unfold claimOrdered
  have hband : ¬ |bandR3.score - bandR1.score| ≤ 0.05 := by
    rw [show bandR3.score - bandR1.score = -(0.1) by
        norm_num [bandR3, bandR1, toMatchResult],
      abs_neg, abs_of_nonneg (by norm_num : (0:ℚ) ≤ 0.1)]
    norm_num
  rw [if_neg hband]
  norm_num [bandR1, bandR3, toMatchResult]

theorem bandR1_ne_bandR2 : bandR1 ≠ bandR2 :=
  fun h => absurd (congrArg MatchResult.episodeId h) (by decide)

theorem bandR2_ne_bandR3 : bandR2 ≠ bandR3 :=
  fun h => absurd (congrArg MatchResult.episodeId h) (by decide)

theorem bandR3_ne_bandR1 : bandR3 ≠ bandR1 :=
  fun h => absurd (congrArg MatchResult.episodeId h) (by decide)

/-- No list containing the three band results — hence no permutation an
engine could return — satisfies the claimed all-pairs ordering: the required
precedences form a cycle (`0.9` before `0.95` and `0.85` before `0.9` by
in-band date order, `0.95` before `0.85` by score order). -/
theorem band_members_not_pairwise (l : List MatchResult) (h1 : bandR1 ∈ l)
    (h2 : bandR2 ∈ l) (h3 : bandR3 ∈ l) : ¬ l.Pairwise claimOrdered := by
  intro hpair
  rcases List.mem_iff_get.mp h1 with ⟨i1, hi1⟩
  rcases List.mem_iff_get.mp h2 with ⟨i2, hi2⟩
  rcases List.mem_iff_get.mp h3 with ⟨i3, hi3⟩
  have hp := List.pairwise_iff_get.mp hpair
  have o12 : ¬ (i1 : ℕ) < (i2 : ℕ) := by
    intro hlt
    have h := hp i1 i2 (Fin.lt_def.mpr hlt)
    rw [hi1, hi2] at h
    exact not_claimOrdered_R1_R2 h
  have o23 : ¬ (i2 : ℕ) < (i3 : ℕ) := by
    intro hlt
    have h := hp i2 i3 (Fin.lt_def.mpr hlt)
    rw [hi2, hi3] at h
    exact not_claimOrdered_R2_R3 h
  have o31 : ¬ (i3 : ℕ) < (i1 : ℕ) := by
    intro hlt
    have h := hp i3 i1 (Fin.lt_def.mpr hlt)
    rw [hi3, hi1] at h
    exact not_claimOrdered_R3_R1 h
  have d12 : (i1 : ℕ) ≠ (i2 : ℕ) := by
    intro he
    rw [Fin.ext he, hi2] at hi1
    exact bandR1_ne_bandR2 hi1.symm
  have d23 : (i2 : ℕ) ≠ (i3 : ℕ) := by
    intro he
    rw [Fin.ext he, hi3] at hi2
    exact bandR2_ne_bandR3 hi2.symm
  have d31 : (i3 : ℕ) ≠ (i1 : ℕ) := by
    intro he
    rw [Fin.ext he, hi1] at hi3
    exact bandR3_ne_bandR1 hi3.symm
  omega

/-- Counterexample to C3 as stated, independent of which order the
implementation-defined sort returns: the ranked list for the band pool is a
permutation of the three kept results, no list containing those three
results satisfies the claimed all-pairs ordering (the band relation is
cyclic on them), and therefore the returned list itself violates the
claimed ordering. -/
theorem findRelatedEpisodes_pairwise_counterexample :
    (findRelatedEpisodes bandSrc [bandC1, bandC2, bandC3] emptyOptions).Perm
        [bandR1, bandR2, bandR3] ∧
    (∀ l : List MatchResult, bandR1 ∈ l → bandR2 ∈ l → bandR3 ∈ l →
      ¬ l.Pairwise claimOrdered) ∧
    ¬ (findRelatedEpisodes bandSrc [bandC1, bandC2, bandC3] emptyOptions).Pairwise
        claimOrdered :=
  ⟨findRelated_band_perm, band_members_not_pairwise,
    band_members_not_pairwise _
      (findRelated_band_perm.mem_iff.mpr (by simp))
      (findRelated_band_perm.mem_iff.mpr (by simp))
      (findRelated_band_perm.mem_iff.mpr (by simp))⟩

/-! ## C4: the "Smith Murder Case" scenario -/

/-- Source episode of the spec's first golden test. -/
def smithSrc : Episode := ⟨1, 10, "S", "The Smith Murder Case", none, none, 1, 1, none⟩

/-- Candidate episode of the spec's first golden test. -/
def smithCand : Episode :=
  ⟨2, 11, "T", "Who Killed John Smith?", some "The murder of John Smith shocks the town.",
    none, 1, 1, none⟩

/-- C4, amended. The candidate's text yields the name `john smith`, but the
source title `"The Smith Murder Case"` yields *no* names — its two
capitalized-pair candidates `"The Smith"` and `"Murder Case"` are removed by
the stop-word filter (`the`, `murder`, `case`) — so the pair has no name
signal and `calculateMatchScore` returns score `0` with reason `""`. -/
theorem smith_scenario :
    (episodeTerms smithCand).names = ["john smith"] ∧
    (episodeTerms smithSrc).names = [] ∧
    calculateMatchScore smithSrc smithCand = ⟨0, ""⟩ := by
  refine ⟨by decide, by decide, ?_⟩
  unfold calculateMatchScore
  rw [if_neg (by decide), show nameMatchesOf smithSrc smithCand = [] by decide,
    scoreAndReason_nil]

/-- Counterexample to C4 as stated: extraction does *not* yield `john smith`
from the source's text, and the score of the pair is `0`, not at least
`0.65`. -/
theorem smith_scenario_counterexample :
    "john smith" ∉ (episodeTerms smithSrc).names ∧
    ¬ (0.65 : ℚ) ≤ (calculateMatchScore smithSrc smithCand).score := by
  constructor
  · decide
  · rw [show calculateMatchScore smithSrc smithCand = ⟨0, ""⟩ by
      unfold calculateMatchScore
      rw [if_neg (by decide), show nameMatchesOf smithSrc smithCand = [] by decide,
        scoreAndReason_nil]]
    norm_num

/-! ## C9: shape of extracted names

Character-class facts, splitter lemmas, and the structure of every match the
three name patterns can produce. -/

theorem isUpperA_toNat {c : Char} (h : isUpperA c = true) :
    65 ≤ c.toNat ∧ c.toNat ≤ 90 := by
  simpa [isUpperA] using h

theorem isLowerA_toNat {c : Char} (h : isLowerA c = true) :
    97 ≤ c.toNat ∧ c.toNat ≤ 122 := by
  simpa [isLowerA] using h

theorem toNat_ofNat_lower (n : Nat) (h1 : 97 ≤ n) (h2 : n ≤ 122) :
    (Char.ofNat n).toNat = n := by
  interval_cases n <;> decide

theorem not_isUpperA_of_toNat {c : Char} (h : ¬ (65 ≤ c.toNat ∧ c.toNat ≤ 90)) :
    isUpperA c = false := by
  simpa [isUpperA] using fun h1 h2 => h ⟨h1, h2⟩

/-- Lowercasing a letter yields a lowercase letter. -/
theorem isLowerA_jsToLower {c : Char} (h : isLetterA c = true) :
    isLowerA (jsToLower c) = true := by
  rcases (by simpa [isLetterA] using h :
      isUpperA c = true ∨ isLowerA c = true) with hu | hl
  · obtain ⟨h1, h2⟩ := isUpperA_toNat hu
    unfold jsToLower
    rw [if_pos hu]
    have := toNat_ofNat_lower (c.toNat + 32) (by omega) (by omega)
    simp [isLowerA, this]
    omega
  · obtain ⟨h1, h2⟩ := isLowerA_toNat hl
    unfold jsToLower
    rw [if_neg (by rw [not_isUpperA_of_toNat (by omega)]; exact Bool.false_ne_true)]
    exact hl

/-- Lowercasing fixes every non-uppercase character, whitespace included. -/
theorem jsToLower_space {c : Char} (h : isJsSpace c = true) : jsToLower c = c := by
  have hn : ¬ (65 ≤ c.toNat ∧ c.toNat ≤ 90) := by
    have := (by simpa [isJsSpace] using h :
      ((9 ≤ c.toNat ∧ c.toNat ≤ 13 ∨ c.toNat = 32) ∨ c.toNat = 160) ∨ c.toNat = 65279)
    omega
  unfold jsToLower
  rw [if_neg (by rw [not_isUpperA_of_toNat hn]; exact Bool.false_ne_true)]

theorem isJsSpace_of_letter {c : Char} (h : isLetterA c = true) : isJsSpace c = false := by
  rcases (by simpa [isLetterA] using h :
      isUpperA c = true ∨ isLowerA c = true) with hu | hl
  · obtain ⟨h1, h2⟩ := isUpperA_toNat hu
    simp [isJsSpace]
    omega
  · obtain ⟨h1, h2⟩ := isLowerA_toNat hl
    simp [isJsSpace]
    omega

theorem isJsSpace_of_lower {c : Char} (h : isLowerA c = true) : isJsSpace c = false :=
  isJsSpace_of_letter (by simp [isLetterA, h])

theorem takeRun_spec (p : Char → Bool) (l : List Char) :
    (∀ c ∈ (takeRun p l).1, p c = true) ∧ l = (takeRun p l).1 ++ (takeRun p l).2 := by
  induction l with
  | nil => simp [takeRun]
  | cons c cs ih =>
    unfold takeRun
    by_cases hc : p c = true
    · simp only [hc, if_true]
      refine ⟨?_, ?_⟩
      · intro x hx
        rcases List.mem_cons.mp hx with rfl | hx'
        · exact hc
        · exact ih.1 x hx'
      · simpa using ih.2
    · rw [if_neg hc]
      simp

/-! ### The `split(/\s+/)` of a word–whitespace–word string -/

theorem splitWsAux_nil (acc : List Char) : splitWsAux [] acc = [acc.reverse] := rfl

theorem splitWsAux_cons (c : Char) (cs acc : List Char) :
    splitWsAux (c :: cs) acc =
      if isJsSpace c then acc.reverse :: splitWsSkip cs else splitWsAux cs (c :: acc) := rfl

theorem splitWsSkip_nil : splitWsSkip [] = [[]] := rfl

theorem splitWsSkip_cons (c : Char) (cs : List Char) :
    splitWsSkip (c :: cs) =
      if isJsSpace c then splitWsSkip cs else splitWsAux cs [c] := rfl

theorem splitWsAux_nonspace (w : List Char) (hw : ∀ c ∈ w, isJsSpace c = false) :
    ∀ r acc, splitWsAux (w ++ r) acc = splitWsAux r (w.reverse ++ acc) := by
  induction w with
  | nil => intro r acc; simp
  | cons c w ih =>
    intro r acc
    rw [List.cons_append, splitWsAux_cons,
      if_neg (by rw [hw c (List.mem_cons_self c w)]; exact Bool.false_ne_true),
      ih (fun x hx => hw x (List.mem_cons_of_mem c hx)) r (c :: acc)]
    simp

theorem splitWsSkip_space (s : List Char) (hs : ∀ c ∈ s, isJsSpace c = true) :
    ∀ r, splitWsSkip (s ++ r) = splitWsSkip r := by
  induction s with
  | nil => intro r; simp
  | cons c s ih =>
    intro r
    rw [List.cons_append, splitWsSkip_cons, if_pos (hs c (List.mem_cons_self c s))]
    exact ih (fun x hx => hs x (List.mem_cons_of_mem c hx)) r

/-- The `split(/\s+/)` of `word ++ spaces ++ word` is the two words. -/
theorem splitWs_two (w1 sep w2 : List Char)
    (hw1 : ∀ c ∈ w1, isJsSpace c = false)
    (hsep : sep ≠ []) (hs : ∀ c ∈ sep, isJsSpace c = true)
    (h2 : w2 ≠ []) (hw2 : ∀ c ∈ w2, isJsSpace c = false) :
    splitWs (w1 ++ sep ++ w2) = [String.mk w1, String.mk w2] := by
  unfold splitWs
  rcases sep with _ | ⟨s0, sep'⟩
  · exact absurd rfl hsep
  rcases w2 with _ | ⟨v, w2'⟩
  · exact absurd rfl h2
  rw [List.append_assoc, splitWsAux_nonspace w1 hw1 _ []]
  rw [List.cons_append, splitWsAux_cons, if_pos (hs s0 (List.mem_cons_self s0 sep'))]
  rw [splitWsSkip_space sep' (fun x hx => hs x (List.mem_cons_of_mem s0 hx))]
  rw [splitWsSkip_cons, if_neg (by
    rw [hw2 v (List.mem_cons_self v w2')]
    exact Bool.false_ne_true)]
  rw [show splitWsAux w2' [v] = splitWsAux (w2' ++ []) [v] by simp,
    splitWsAux_nonspace w2'
      (fun x hx => hw2 x (List.mem_cons_of_mem v hx)) [] [v]]
  rw [splitWsAux_nil]
  simp

/-- The `split(/\s+/)` of a single non-space word is that word. -/
theorem splitWs_one (w : List Char) (hw : ∀ c ∈ w, isJsSpace c = false) :
    splitWs w = [String.mk w] := by
  unfold splitWs
  rw [show splitWsAux w [] = splitWsAux (w ++ []) [] by simp,
    splitWsAux_nonspace w hw [] [], splitWsAux_nil]
  simp

/-! ### Shapes of pattern matches -/

/-- A nonempty all-ASCII-letter word. -/
def letterWord (w : List Char) : Prop := w ≠ [] ∧ ∀ c ∈ w, isLetterA c = true

/-- The raw captured group of patterns 2 and 3: one letter word, or two
letter words separated by one whitespace run. -/
def rawShape (raw : List Char) : Prop :=
  letterWord raw ∨
  ∃ w1 sep w2, raw = w1 ++ sep ++ w2 ∧ letterWord w1 ∧ letterWord w2 ∧
    sep ≠ [] ∧ ∀ c ∈ sep, isJsSpace c = true

/-- The two-word raw shape (pattern 3's group). -/
def rawShape2 (raw : List Char) : Prop :=
  ∃ w1 sep w2, raw = w1 ++ sep ++ w2 ∧ letterWord w1 ∧ letterWord w2 ∧
    sep ≠ [] ∧ ∀ c ∈ sep, isJsSpace c = true

theorem parseWord_cons (c : Char) (cs : List Char) :
    parseWord (c :: cs) =
      if isUpperA c then
        (if (takeRun isLowerA cs).1.isEmpty then none
         else some (c :: (takeRun isLowerA cs).1, (takeRun isLowerA cs).2))
      else none := rfl

theorem parseWord_spec {cs w rest : List Char} (h : parseWord cs = some (w, rest)) :
    letterWord w := by
  match cs with
  | [] => exact absurd h (by simp [parseWord])
  | c :: cs' =>
    rw [parseWord_cons] at h
    by_cases hu : isUpperA c = true
    · rw [if_pos hu] at h
      by_cases he : (takeRun isLowerA cs').1.isEmpty
      · rw [if_pos he] at h
        cases h
      · rw [if_neg he] at h
        obtain ⟨hw, _⟩ := Prod.mk.injEq .. ▸ Option.some_inj.mp h
        subst hw
        refine ⟨by simp, ?_⟩
        intro x hx
        rcases List.mem_cons.mp hx with rfl | hx'
        · simp [isLetterA, hu]
        · have := (takeRun_spec isLowerA cs').1 x hx'
          simp [isLetterA, this]
    · rw [if_neg hu] at h
      cases h

theorem p1At_shape {cs : List Char} {m : List Char × List Char} {rest : List Char}
    (h : p1At cs = some (m, rest)) : letterWord m.1 ∧ letterWord m.2 := by
  unfold p1At at h
  rcases hpw : parseWord cs with _ | ⟨⟨w1, s1⟩⟩ <;> rw [hpw] at h
  · cases h
  · simp only at h
    by_cases hws : (takeRun isJsSpace s1).1.isEmpty
    · rw [if_pos hws] at h
      cases h
    · rw [if_neg hws] at h
      rcases hpw2 : parseWord (takeRun isJsSpace s1).2 with _ | ⟨⟨w2, s2⟩⟩ <;>
        rw [hpw2] at h
      · cases h
      · simp only at h
        by_cases hb : notWordAt s2 = true
        · rw [if_pos hb] at h
          obtain ⟨hm, _⟩ := Prod.mk.injEq .. ▸ Option.some_inj.mp h
          subst hm
          exact ⟨parseWord_spec hpw, parseWord_spec hpw2⟩
        · rw [if_neg hb] at h
          cases h

theorem p2At_shape {cs raw rest : List Char} (h : p2At cs = some (raw, rest)) :
    rawShape raw := by
  unfold p2At at h
  rcases hpw : parseWord cs with _ | ⟨⟨w1, s1⟩⟩ <;> rw [hpw] at h
  · cases h
  · simp only at h
    have hw1 := parseWord_spec hpw
    by_cases hws : (takeRun isJsSpace s1).1.isEmpty
    · rw [if_pos hws] at h
      rcases hps : possTail s1 with _ | rest' <;> rw [hps] at h
      · cases h
      · obtain ⟨hr, _⟩ := Prod.mk.injEq .. ▸ Option.some_inj.mp h
        subst hr
        exact Or.inl hw1
    · rw [if_neg hws] at h
      rcases hpw2 : parseWord (takeRun isJsSpace s1).2 with _ | ⟨⟨w2, s2⟩⟩ <;>
        rw [hpw2] at h
      · rcases hps : possTail s1 with _ | rest' <;> rw [hps] at h
        · cases h
        · obtain ⟨hr, _⟩ := Prod.mk.injEq .. ▸ Option.some_inj.mp h
          subst hr
          exact Or.inl hw1
      · simp only at h
        rcases hps2 : possTail s2 with _ | rest' <;> rw [hps2] at h
        · rcases hps : possTail s1 with _ | rest'' <;> rw [hps] at h
          · cases h
          · obtain ⟨hr, _⟩ := Prod.mk.injEq .. ▸ Option.some_inj.mp h
            subst hr
            exact Or.inl hw1
        · obtain ⟨hr, _⟩ := Prod.mk.injEq .. ▸ Option.some_inj.mp h
          subst hr
          refine Or.inr ⟨w1, (takeRun isJsSpace s1).1, w2, rfl, hw1, parseWord_spec hpw2,
            ?_, (takeRun_spec isJsSpace s1).1⟩
          intro he
          rw [← List.isEmpty_iff] at he
          exact hws he

theorem p3Group_shape {s raw rest : List Char} (h : p3Group s = some (raw, rest)) :
    rawShape2 raw := by
  unfold p3Group at h
  match s with
  | [] => cases h
  | a :: as_ =>
    simp only at h
    by_cases ha : isLetterA a = true
    · rw [if_pos ha] at h
      by_cases hr1 : (takeRun isLetterA as_).1.isEmpty
      · rw [if_pos hr1] at h
        cases h
      · rw [if_neg hr1] at h
        by_cases hws : (takeRun isJsSpace (takeRun isLetterA as_).2).1.isEmpty
        · rw [if_pos hws] at h
          cases h
        · rw [if_neg hws] at h
          rcases hs3 : (takeRun isJsSpace (takeRun isLetterA as_).2).2 with _ | ⟨b, bs⟩ <;>
            rw [hs3] at h
          · cases h
          · simp only at h
            by_cases hb : isLetterA b = true
            · rw [if_pos hb] at h
              by_cases hr2 : (takeRun isLetterA bs).1.isEmpty
              · rw [if_pos hr2] at h
                cases h
              · rw [if_neg hr2] at h
                by_cases hnw : notWordAt (takeRun isLetterA bs).2 = true
                · rw [if_pos hnw] at h
                  obtain ⟨hr, _⟩ := Prod.mk.injEq .. ▸ Option.some_inj.mp h
                  subst hr
                  refine ⟨a :: (takeRun isLetterA as_).1,
                    (takeRun isJsSpace (takeRun isLetterA as_).2).1,
                    b :: (takeRun isLetterA bs).1, by simp, ?_, ?_, ?_, ?_⟩
                  · refine ⟨by simp, ?_⟩
                    intro x hx
                    rcases List.mem_cons.mp hx with rfl | hx'
                    · exact ha
                    · exact (takeRun_spec isLetterA as_).1 x hx'
                  · refine ⟨by simp, ?_⟩
                    intro x hx
                    rcases List.mem_cons.mp hx with rfl | hx'
                    · exact hb
                    · exact (takeRun_spec isLetterA bs).1 x hx'
                  · intro he
                    rw [← List.isEmpty_iff] at he
                    exact hws he
                  · exact (takeRun_spec isJsSpace (takeRun isLetterA as_).2).1
                · rw [if_neg hnw] at h
                  cases h
            · rw [if_neg hb] at h
              cases h
    · rw [if_neg ha] at h
      cases h

theorem p3Tail_shape {s raw rest : List Char} (h : p3Tail s = some (raw, rest)) :
    rawShape2 raw := by
  unfold p3Tail at h
  by_cases hws : (takeRun isJsSpace s).1.isEmpty
  · rw [if_pos hws] at h
    cases h
  · rw [if_neg hws] at h
    exact p3Group_shape h

theorem p3TryCues_shape {ks : List (List Char)} {cs raw rest : List Char}
    (h : p3TryCues ks cs = some (raw, rest)) : rawShape2 raw := by
  induction ks with
  | nil => cases h
  | cons k ks ih =>
    unfold p3TryCues at h
    rcases he : eatLitCI k cs with _ | ⟨⟨consumed, afterKw⟩⟩ <;> rw [he] at h
    · exact ih h
    · simp only at h
      rcases ht : p3Tail afterKw with _ | ⟨⟨raw', rest'⟩⟩ <;> rw [ht] at h
      · exact ih h
      · obtain ⟨hr, _⟩ := Prod.mk.injEq .. ▸ Option.some_inj.mp h
        subst hr
        exact p3Tail_shape ht

theorem p3At_shape {cs raw rest : List Char} (h : p3At cs = some (raw, rest)) :
    rawShape2 raw := p3TryCues_shape h

/-! ### Every scanner match has the pattern's shape -/

theorem scanP1_shape : ∀ (fuel : Nat) (b : Bool) (cs : List Char),
    ∀ m ∈ scanP1 fuel b cs, letterWord m.1 ∧ letterWord m.2 := by
  intro fuel
  induction fuel with
  | zero => intro b cs m hm; exact absurd hm (by simp [scanP1])
  | succ fuel ih =>
    intro b cs m hm
    match cs with
    | [] => exact absurd hm (by simp [scanP1])
    | c :: cs' =>
      rw [show scanP1 (fuel + 1) b (c :: cs') =
        (match (if b then none else p1At (c :: cs')) with
         | some (m, rest) => m :: scanP1 fuel true rest
         | none => scanP1 fuel (isWordC c) cs') from rfl] at hm
      rcases hp : (if b then none else p1At (c :: cs')) with _ | ⟨⟨m', rest⟩⟩ <;>
        rw [hp] at hm
      · exact ih _ _ m hm
      · rcases List.mem_cons.mp hm with rfl | hm'
        · by_cases hb : b
          · rw [if_pos hb] at hp; cases hp
          · rw [if_neg hb] at hp
            exact p1At_shape hp
        · exact ih _ _ m hm'

theorem scanP2_shape : ∀ (fuel : Nat) (b : Bool) (cs : List Char),
    ∀ raw ∈ scanP2 fuel b cs, rawShape raw := by
  intro fuel
  induction fuel with
  | zero => intro b cs raw hm; exact absurd hm (by simp [scanP2])
  | succ fuel ih =>
    intro b cs raw hm
    match cs with
    | [] => exact absurd hm (by simp [scanP2])
    | c :: cs' =>
      rw [show scanP2 (fuel + 1) b (c :: cs') =
        (match (if b then none else p2At (c :: cs')) with
         | some (m, rest) => m :: scanP2 fuel true rest
         | none => scanP2 fuel (isWordC c) cs') from rfl] at hm
      rcases hp : (if b then none else p2At (c :: cs')) with _ | ⟨⟨m', rest⟩⟩ <;>
        rw [hp] at hm
      · exact ih _ _ raw hm
      · rcases List.mem_cons.mp hm with rfl | hm'
        · by_cases hb : b
          · rw [if_pos hb] at hp; cases hp
          · rw [if_neg hb] at hp
            exact p2At_shape hp
        · exact ih _ _ raw hm'

theorem scanP3_shape : ∀ (fuel : Nat) (cs : List Char),
    ∀ raw ∈ scanP3 fuel cs, rawShape2 raw := by
  intro fuel
  induction fuel with
  | zero => intro cs raw hm; exact absurd hm (by simp [scanP3])
  | succ fuel ih =>
    intro cs raw hm
    match cs with
    | [] => exact absurd hm (by simp [scanP3])
    | c :: cs' =>
      rw [show scanP3 (fuel + 1) (c :: cs') =
        (match p3At (c :: cs') with
         | some (m, rest) => m :: scanP3 fuel rest
         | none => scanP3 fuel cs') from rfl] at hm
      rcases hp : p3At (c :: cs') with _ | ⟨⟨m', rest⟩⟩ <;> rw [hp] at hm
      · exact ih _ raw hm
      · rcases List.mem_cons.mp hm with rfl | hm'
        · exact p3At_shape hp
        · exact ih _ raw hm'

/-! ### The names inserted by each rule keep the shape invariant -/

/-- The shape every stored name satisfies: exactly two nonempty
lowercase-letter tokens separated by one nonempty whitespace run, with
neither token a stop word or a state fragment. -/
def nameShape (n : String) : Prop :=
  ∃ w1 sep w2 : List Char,
    n.data = w1 ++ sep ++ w2 ∧ w1 ≠ [] ∧ w2 ≠ [] ∧ sep ≠ [] ∧
    (∀ c ∈ w1, isLowerA c = true) ∧ (∀ c ∈ w2, isLowerA c = true) ∧
    (∀ c ∈ sep, isJsSpace c = true) ∧
    String.mk w1 ∉ STOP_WORDS ∧ String.mk w1 ∉ US_STATES ∧
    String.mk w2 ∉ STOP_WORDS ∧ String.mk w2 ∉ US_STATES

theorem mem_addUnique {acc : List String} {s x : String} (hx : x ∈ addUnique acc s) :
    x ∈ acc ∨ x = s := by
  unfold addUnique at hx
  split at hx
  · exact Or.inl hx
  · rcases List.mem_append.mp hx with h | h
    · exact Or.inl h
    · exact Or.inr (List.mem_singleton.mp h)

theorem map_jsToLower_space {sep : List Char} (hs : ∀ c ∈ sep, isJsSpace c = true) :
    sep.map jsToLower = sep := by
  induction sep with
  | nil => rfl
  | cons c s ih =>
    rw [List.map_cons, jsToLower_space (hs c (List.mem_cons_self c s)),
      ih (fun x hx => hs x (List.mem_cons_of_mem c hx))]

theorem p1Insert_shape {acc : List String} {m : List Char × List Char}
    (hm : letterWord m.1 ∧ letterWord m.2)
    (hacc : ∀ n ∈ acc, nameShape n) :
    ∀ n ∈ p1Insert acc m, nameShape n := by
  intro n hn
  simp only [p1Insert] at hn
  split at hn
  · exact hacc n hn
  split at hn
  · exact hacc n hn
  split at hn
  · exact hacc n hn
  split at hn
  · exact hacc n hn
  rename_i hne hstop hstate hskip
  rcases mem_addUnique hn with h | rfl
  · exact hacc n h
  refine ⟨m.1.map jsToLower, [' '], m.2.map jsToLower, ?_, ?_, ?_, ?_, ?_, ?_, ?_,
    ?_, ?_, ?_, ?_⟩
  · show (lowerStr m.1 ++ " " ++ lowerStr m.2).data = _
    simp [lowerStr, String.data_append]
  · simpa using hm.1.1
  · simpa using hm.2.1
  · simp
  · intro c hc
    rcases List.mem_map.mp hc with ⟨c', hc', rfl⟩
    exact isLowerA_jsToLower (hm.1.2 c' hc')
  · intro c hc
    rcases List.mem_map.mp hc with ⟨c', hc', rfl⟩
    exact isLowerA_jsToLower (hm.2.2 c' hc')
  · intro c hc
    rw [List.mem_singleton.mp hc]
    rfl
  · exact fun h => hstop (Or.inl h)
  · exact fun h => hstate (Or.inl h)
  · exact fun h => hstop (Or.inr h)
  · exact fun h => hstate (Or.inr h)

/-- Words of an all-letter list, after lowercasing, are nonempty, all
lowercase and non-space. -/
theorem lowered_word_facts {w : List Char} (hw : letterWord w) :
    (w.map jsToLower ≠ [] ∧ (∀ c ∈ w.map jsToLower, isLowerA c = true) ∧
      ∀ c ∈ w.map jsToLower, isJsSpace c = false) := by
  refine ⟨by simpa using hw.1, ?_, ?_⟩
  · intro c hc
    rcases List.mem_map.mp hc with ⟨c', hc', rfl⟩
    exact isLowerA_jsToLower (hw.2 c' hc')
  · intro c hc
    rcases List.mem_map.mp hc with ⟨c', hc', rfl⟩
    exact isJsSpace_of_lower (isLowerA_jsToLower (hw.2 c' hc'))

/-- The split of a lowered two-word raw group. -/
theorem splitWs_lowered_raw {w1 sep w2 : List Char} (hw1 : letterWord w1)
    (hw2 : letterWord w2) (hsep : sep ≠ []) (hs : ∀ c ∈ sep, isJsSpace c = true) :
    splitWs ((w1 ++ sep ++ w2).map jsToLower)
      = [String.mk (w1.map jsToLower), String.mk (w2.map jsToLower)] := by
  rw [List.map_append, List.map_append, map_jsToLower_space hs]
  exact splitWs_two _ _ _ (lowered_word_facts hw1).2.2 hsep hs
    (lowered_word_facts hw2).1 (lowered_word_facts hw2).2.2

theorem p2Insert_shape {acc : List String} {raw : List Char} (hr : rawShape raw)
    (hacc : ∀ n ∈ acc, nameShape n) :
    ∀ n ∈ p2Insert acc raw, nameShape n := by
  intro n hn
  simp only [p2Insert] at hn
  split at hn
  · exact hacc n hn
  split at hn
  · rename_i hbad hkeep
    rcases List.mem_append.mp hn with h | h
    · exact hacc n h
    rw [List.mem_singleton.mp h]
    rcases hr with hone | ⟨w1, sep, w2, rfl, hw1, hw2, hsepne, hsep⟩
    · exfalso
      have hsplit : splitWs ((lowerStr raw).data) = [String.mk (raw.map jsToLower)] :=
        splitWs_one _ (lowered_word_facts hone).2.2
      rw [hsplit] at hkeep
      simp at hkeep
    · have hsplit : splitWs ((lowerStr (w1 ++ sep ++ w2)).data)
          = [String.mk (w1.map jsToLower), String.mk (w2.map jsToLower)] :=
        splitWs_lowered_raw hw1 hw2 hsepne hsep
      rw [hsplit] at hbad
      simp only [List.any_cons, List.any_nil, Bool.or_eq_true, Bool.or_false] at hbad
      push_neg at hbad
      refine ⟨w1.map jsToLower, sep, w2.map jsToLower, ?_, (lowered_word_facts hw1).1,
        (lowered_word_facts hw2).1, hsepne, (lowered_word_facts hw1).2.1,
        (lowered_word_facts hw2).2.1, hsep, ?_, ?_, ?_, ?_⟩
      · show ((w1 ++ sep ++ w2).map jsToLower) = _
        rw [List.map_append, List.map_append, map_jsToLower_space hsep]
      · exact fun hmem => hbad.1 (by simp [hmem])
      · exact fun hmem => hbad.1 (by simp [hmem])
      · exact fun hmem => hbad.2 (by simp [hmem])
      · exact fun hmem => hbad.2 (by simp [hmem])
  · exact hacc n hn

theorem p3Insert_shape {acc : List String} {raw : List Char} (hr : rawShape2 raw)
    (hacc : ∀ n ∈ acc, nameShape n) :
    ∀ n ∈ p3Insert acc raw, nameShape n := by
  intro n hn
  simp only [p3Insert] at hn
  split at hn
  · exact hacc n hn
  rename_i hbad
  rcases mem_addUnique hn with h | rfl
  · exact hacc n h
  obtain ⟨w1, sep, w2, rfl, hw1, hw2, hsepne, hsep⟩ := hr
  have hsplit := splitWs_lowered_raw hw1 hw2 hsepne hsep
  rw [show (lowerStr (w1 ++ sep ++ w2)).data = (w1 ++ sep ++ w2).map jsToLower
    from rfl, hsplit] at hbad
  simp only [List.any_cons, List.any_nil, Bool.or_eq_true, Bool.or_false] at hbad
  push_neg at hbad
  refine ⟨w1.map jsToLower, sep, w2.map jsToLower, ?_, (lowered_word_facts hw1).1,
    (lowered_word_facts hw2).1, hsepne, (lowered_word_facts hw1).2.1,
    (lowered_word_facts hw2).2.1, hsep, ?_, ?_, ?_, ?_⟩
  · show ((w1 ++ sep ++ w2).map jsToLower) = _
    rw [List.map_append, List.map_append, map_jsToLower_space hsep]
  · exact fun hmem => hbad.1 (by simp [hmem])
  · exact fun hmem => hbad.1 (by simp [hmem])
  · exact fun hmem => hbad.2 (by simp [hmem])
  · exact fun hmem => hbad.2 (by simp [hmem])

theorem foldl_shape {α : Type} {ins : List String → α → List String} {P : α → Prop}
    (hins : ∀ acc m, P m → (∀ n ∈ acc, nameShape n) → ∀ n ∈ ins acc m, nameShape n) :
    ∀ (l : List α) (acc : List String), (∀ m ∈ l, P m) → (∀ n ∈ acc, nameShape n) →
      ∀ n ∈ l.foldl ins acc, nameShape n := by
  intro l
  induction l with
  | nil =>
    intro acc _ hacc
    simpa using hacc
  | cons m l ih =>
    intro acc hl hacc
    rw [List.foldl_cons]
    exact ih _ (fun x hx => hl x (List.mem_cons_of_mem m hx))
      (hins acc m (hl m (List.mem_cons_self m l)) hacc)

/-- Every name `extractNames` produces has the two-token shape. -/
theorem extractNames_shape (text : String) : ∀ n ∈ extractNames text, nameShape n := by
  unfold extractNames
  split
  · simp
  · apply foldl_shape (P := rawShape2) (fun acc m => p3Insert_shape)
      _ _ (fun m hm => scanP3_shape _ _ m hm)
    apply foldl_shape (P := rawShape) (fun acc m => p2Insert_shape)
      _ _ (fun m hm => scanP2_shape _ _ _ m hm)
    apply foldl_shape (P := fun m => letterWord m.1 ∧ letterWord m.2)
      (fun acc m => p1Insert_shape)
      _ _ (fun m hm => scanP1_shape _ _ _ m hm)
    simp

/-- C9, amended. Every name in the set returned by `extractKeyTerms`
consists of exactly two nonempty lowercase-letter tokens separated by a
single nonempty whitespace run (pattern 1 always separates with one space,
but patterns 2 and 3 copy the original whitespace, so the separator need not
be the single character `' '`), and neither token is a stop word or a
US-state fragment. -/
theorem extractKeyTerms_name_shape (text : String) (n : String)
    (h : n ∈ (extractKeyTerms text).names) : nameShape n :=
  extractNames_shape text n h

/-- Witness for C9 at a concrete extraction. -/
theorem extractKeyTerms_name_shape_witness :
    ("john doe" ∈ (extractKeyTerms "John Doe").names) ∧ nameShape "john doe" :=
  ⟨by decide, extractKeyTerms_name_shape "John Doe" "john doe" (by decide)⟩

/-- Text whose possessive `Karina<TAB>Cooper's` stores a tab-separated name. -/
def tabText : String :=
  "Karina" ++ String.singleton (Char.ofNat 9) ++ "Cooper"
    ++ String.singleton (Char.ofNat 39) ++ "s husband"

def tabName : String := "karina" ++ String.singleton (Char.ofNat 9) ++ "cooper"

/-- The shape asserted by C9 as stated: two tokens separated by the single
character `' '` (a space), lowercase, with the stop-word/state filters. -/
def spaceShapedName (n : String) : Bool :=
  match splitChar ' ' n.data [] with
  | [w1, w2] =>
    !w1.isEmpty && !w2.isEmpty && w1.all isLowerA && w2.all isLowerA &&
    !(STOP_WORDS.contains (String.mk w1)) && !(US_STATES.contains (String.mk w1)) &&
    !(STOP_WORDS.contains (String.mk w2)) && !(US_STATES.contains (String.mk w2))
  | _ => false

/-- Counterexample to C9 as stated: the possessive pattern copies the
matched whitespace verbatim, so `"Karina<TAB>Cooper's"` stores the name
`"karina<TAB>cooper"`, which is not two *space*-separated tokens. -/
theorem extractKeyTerms_name_shape_counterexample :
    tabName ∈ (extractKeyTerms tabText).names ∧ spaceShapedName tabName = false :=
  ⟨by decide, by decide⟩

end Crimeweb
